import Mathlib

/-!
Verification of the transect-generation core of `transect_utils.py`
(`generate_transects`) against its natural-language specification.

The Python function first reprojects the WGS84 baseline to a local UTM
system through geopandas (`gdf.to_crs(utm_crs)`), an external-library
call outside the algorithmic core; the embedding therefore takes the
already-projected planar polyline (`line_utm`) as input, exactly as the
rest of the function consumes it.  All numeric work downstream is plain
arithmetic over planar coordinates; Python floats are modelled as exact
rationals (ℚ).  The only transcendental primitive, `np.sqrt` (also
implicit in shapely's `length`/`project`/`interpolate`), is modelled as
an explicit square-root parameter `rt : ℚ → ℚ`; theorems assume of it
only what they need (`SqrtPos`, or exactness at the values actually
encountered), and concrete executions instantiate it with `ratSqrt`,
the exact rational square root (exact on all values arising in the
chosen concrete inputs).
-/

attribute [local semireducible] Rat.mul Rat.inv Rat.add Rat.sub

deriving instance DecidableEq for Except

namespace TransectMaker

/-- A planar (UTM) point or 2-vector: shapely `Point` coordinates in meters. -/
structure Pt where
  x : ℚ
  y : ℚ
deriving DecidableEq

/-- Fuel-driven Newton iteration for the integer square root
(kernel-reducible replacement for `Nat.sqrt`, used only to build
`ratSqrt`; its correctness is irrelevant to every theorem because
`ratSqrt` checks the root by squaring). -/
def nsqrtAux (n : Nat) : Nat → Nat → Nat
  | x, 0 => x
  | x, Nat.succ fuel => let y := (x + n / x) / 2; if y < x then nsqrtAux n y fuel else x

/-- Integer square-root candidate used by `ratSqrt`. -/
def nsqrt (n : Nat) : Nat := if n = 0 then 0 else nsqrtAux n n 64

/-- Exact rational square root where one exists: returns the exact
nonnegative root of a perfect-square rational, `0` on nonpositive
input (as `Real.sqrt` does), and a placeholder `1` on positive
non-squares.  It is the executable instantiation of the model's
square-root parameter; concrete inputs are chosen so that every
square root actually encountered is exact. -/
def ratSqrt (q : ℚ) : ℚ :=
  if q ≤ 0 then 0
  else
    let sn := nsqrt q.num.toNat
    let sd := nsqrt q.den
    if sn * sn = q.num.toNat ∧ sd * sd = q.den then (sn : ℚ) / (sd : ℚ) else 1

/-- The sign behaviour of the real square root: positive exactly on
positive inputs, zero exactly on nonpositive ones.  This is the only
global property of `np.sqrt` the Python code relies on in its
`mag > 0` / `mag == 0` branch tests. -/
def SqrtPos (rt : ℚ → ℚ) : Prop := ∀ q : ℚ, (0 < rt q ↔ 0 < q) ∧ (rt q = 0 ↔ q ≤ 0)

theorem ratSqrt_sqrtPos : SqrtPos ratSqrt := by
  intro q
  unfold ratSqrt
  by_cases h : q ≤ 0
  · rw [if_pos h]
    refine ⟨⟨fun h1 => absurd h1 (lt_irrefl 0), fun h1 => absurd h (not_le.mpr h1)⟩,
      ⟨fun _ => h, fun _ => rfl⟩⟩
  · push_neg at h
    rw [if_neg (not_le.mpr h)]
    have hnum : 0 < q.num := Rat.num_pos.mpr h
    have hposval : 0 < (if nsqrt q.num.toNat * nsqrt q.num.toNat = q.num.toNat ∧
        nsqrt q.den * nsqrt q.den = q.den then ((nsqrt q.num.toNat : ℚ) / (nsqrt q.den : ℚ))
        else 1) := by
      split
      · rename_i hsq
        have h1 : 1 ≤ q.num.toNat := by omega
        have hsn : 0 < nsqrt q.num.toNat := by
          rcases Nat.eq_zero_or_pos (nsqrt q.num.toNat) with h0 | h0
          · exfalso; rw [h0] at hsq; simp at hsq; omega
          · exact h0
        have hsd : 0 < nsqrt q.den := by
          have hd : 0 < q.den := q.den_pos
          rcases Nat.eq_zero_or_pos (nsqrt q.den) with h0 | h0
          · exfalso; rw [h0] at hsq; simp at hsq; omega
          · exact h0
        positivity
      · norm_num
    exact ⟨⟨fun _ => h, fun _ => hposval⟩,
      ⟨fun hz => absurd hz (ne_of_gt hposval), fun hle => absurd h (not_lt.mpr hle)⟩⟩

/-- Euclidean length of the segment from `p` to `q`
(`np.sqrt(dx**2 + dy**2)`, shapely segment length). -/
def segLen (rt : ℚ → ℚ) (p q : Pt) : ℚ :=
  rt ((q.x - p.x) ^ 2 + (q.y - p.y) ^ 2)

/-- shapely `LineString.length`: the sum of the segment lengths. -/
def polylineLength (rt : ℚ → ℚ) : List Pt → ℚ
  | p :: q :: rest => segLen rt p q + polylineLength rt (q :: rest)
  | _ => 0

/-- shapely `LineString.interpolate(d)`: the point at chainage `d`
along the polyline, clamped to the endpoints. -/
def interpolate (rt : ℚ → ℚ) : List Pt → ℚ → Pt
  | [], _ => ⟨0, 0⟩
  | [p], _ => p
  | p :: q :: rest, d =>
    let L := segLen rt p q
    if d ≤ 0 then p
    else if d ≤ L then ⟨p.x + d / L * (q.x - p.x), p.y + d / L * (q.y - p.y)⟩
    else interpolate rt (q :: rest) (d - L)

/-- The consecutive segments of a polyline. -/
def segsOf (l : List Pt) : List (Pt × Pt) := l.zip l.tail

/-- Walk the segments keeping the chainage of the closest point found
so far (`best = some (bestSquaredDistance, bestChainage)`); a later
segment wins only with a strictly smaller squared distance, so the
first minimum is kept. -/
def projectAux (rt : ℚ → ℚ) (p : Pt) :
    List (Pt × Pt) → ℚ → Option (ℚ × ℚ) → ℚ
  | [], _, none => 0
  | [], _, some best => best.2
  | (a, b) :: rest, acc, best =>
    let rx := b.x - a.x
    let ry := b.y - a.y
    let rr := rx ^ 2 + ry ^ 2
    let t0 := if rr = 0 then 0 else ((p.x - a.x) * rx + (p.y - a.y) * ry) / rr
    let t := min 1 (max 0 t0)
    let dsq := (p.x - (a.x + t * rx)) ^ 2 + (p.y - (a.y + t * ry)) ^ 2
    let L := segLen rt a b
    match best with
    | none => projectAux rt p rest (acc + L) (some (dsq, acc + t * L))
    | some bb =>
      if dsq < bb.1 then projectAux rt p rest (acc + L) (some (dsq, acc + t * L))
      else projectAux rt p rest (acc + L) (some bb)

/-- shapely `LineString.project(p)`: chainage along the polyline of the
point nearest to `p`. -/
def project (rt : ℚ → ℚ) (line : List Pt) (p : Pt) : ℚ :=
  projectAux rt p (segsOf line) 0 none

/-! ## Resampler: `np.arange` and the sample-distance merge (lines 136–155) -/

/-- `np.arange(0, stop, step)` for a positive step: the values
`0, step, 2*step, …` strictly below `stop`. -/
def arangeQ (stop step : ℚ) : List ℚ :=
  (List.range (⌈stop / step⌉).toNat).map (fun k : ℕ => (k : ℚ) * step)

/-- Lines 136–155: merge the regular distances with the reference
(MOP) crossing distances — drop every regular distance strictly
within `0.3 * spacing` of some crossing distance, append the crossing
distances, and sort ascending (`all_distances.sort()`; Python's sort
is stable and ascending, here `List.insertionSort`). -/
def sampleDistances (totalLen spacing : ℚ) (mopDists : List ℚ) : List ℚ :=
  let regular := arangeQ totalLen spacing
  let kept := regular.filter
    (fun d => ¬ mopDists.any (fun m => decide (|d - m| < spacing * (3/10))))
  List.insertionSort (· ≤ ·) (kept ++ mopDists)

/-! ## Reference Aligner: extension, intersection, crossings (lines 61–134) -/

/-- A row of `mop_lines_gdf`: an optional `Name` attribute and the
(already UTM-projected, 2D-forced) coordinates of its geometry. -/
structure MopRow where
  name : Option String
  coords : List Pt
deriving DecidableEq

/-- The error outcomes of `generate_transects`:
`tooShort a b` models the `ValueError` of lines 55–59, whose message
interpolates the measured length `a` and the requested spacing `b`;
`indexError` models the uncaught `IndexError` raised by
`coords[1]` / `coords[-2]` (lines 83, 97) when a reference geometry has
fewer than 2 coordinates. -/
inductive GenError where
  | tooShort (measuredLen spacing : ℚ)
  | indexError
deriving DecidableEq

/-- `mop_row.get('Name', f'MOP_{idx}')`. -/
def rowName (row : MopRow) (idx : Nat) : String :=
  row.name.getD ("MOP_" ++ toString idx)

/-- Lines 72–111: extend the reference line by a 5000 m ray at both
ends along its terminal segment directions (skipping the extension
when a terminal segment is degenerate).  Accessing `coords[1]` or
`coords[-2]` of a geometry with fewer than two coordinates raises
`IndexError`. -/
def extendMop (rt : ℚ → ℚ) (coords : List Pt) : Except GenError (List Pt) :=
  match coords with
  | c0 :: c1 :: _ =>
    let e0 := coords.getD (coords.length - 1) ⟨0, 0⟩
    let e1 := coords.getD (coords.length - 2) ⟨0, 0⟩
    let dxs := c1.x - c0.x
    let dys := c1.y - c0.y
    let magS := rt (dxs ^ 2 + dys ^ 2)
    let extStart : Pt :=
      if 0 < magS then ⟨c0.x - dxs / magS * 5000, c0.y - dys / magS * 5000⟩ else c0
    let dxe := e0.x - e1.x
    let dye := e0.y - e1.y
    let magE := rt (dxe ^ 2 + dye ^ 2)
    let extEnd : Pt :=
      if 0 < magE then ⟨e0.x + dxe / magE * 5000, e0.y + dye / magE * 5000⟩ else e0
    .ok ([extStart] ++ coords ++ [extEnd])
  | _ => .error .indexError

/-- 2D cross product of `(ax, ay)` and `(bx, by)`. -/
def cross2 (ax ay bx by2 : ℚ) : ℚ := ax * by2 - ay * bx

/-- The set-theoretic intersection of two closed segments. -/
inductive SegInter where
  | nil
  | pt (p : Pt)
  | seg (p q : Pt)
deriving DecidableEq

/-- Exact intersection of segments `a–b` and `c–d` (the geometric
primitive underlying shapely's `LineString.intersection`): a point for
proper or touching crossings, a segment for collinear overlap of
positive length. -/
def segInter (a b c d : Pt) : SegInter :=
  let rx := b.x - a.x
  let ry := b.y - a.y
  let sx := d.x - c.x
  let sy := d.y - c.y
  let qpx := c.x - a.x
  let qpy := c.y - a.y
  let denom := cross2 rx ry sx sy
  if denom ≠ 0 then
    let t := cross2 qpx qpy sx sy / denom
    let u := cross2 qpx qpy rx ry / denom
    if 0 ≤ t ∧ t ≤ 1 ∧ 0 ≤ u ∧ u ≤ 1 then .pt ⟨a.x + t * rx, a.y + t * ry⟩ else .nil
  else if rx = 0 ∧ ry = 0 then
    -- degenerate first segment: a single point
    if sx = 0 ∧ sy = 0 then (if a = c then .pt a else .nil)
    else if cross2 (a.x - c.x) (a.y - c.y) sx sy = 0 then
      let u := ((a.x - c.x) * sx + (a.y - c.y) * sy) / (sx ^ 2 + sy ^ 2)
      if 0 ≤ u ∧ u ≤ 1 then .pt a else .nil
    else .nil
  else if sx = 0 ∧ sy = 0 then
    -- degenerate second segment: a single point
    if cross2 qpx qpy rx ry = 0 then
      let t := (qpx * rx + qpy * ry) / (rx ^ 2 + ry ^ 2)
      if 0 ≤ t ∧ t ≤ 1 then .pt c else .nil
    else .nil
  else if cross2 qpx qpy rx ry = 0 then
    -- collinear non-degenerate segments: intersect the parameter intervals
    let rr := rx ^ 2 + ry ^ 2
    let t0 := (qpx * rx + qpy * ry) / rr
    let t1 := ((d.x - a.x) * rx + (d.y - a.y) * ry) / rr
    let lo := max 0 (min t0 t1)
    let hi := min 1 (max t0 t1)
    if lo < hi then .seg ⟨a.x + lo * rx, a.y + lo * ry⟩ ⟨a.x + hi * rx, a.y + hi * ry⟩
    else if lo = hi then .pt ⟨a.x + lo * rx, a.y + lo * ry⟩
    else .nil
  else .nil

/-- Classification of `lineA.intersection(lineB)` as the Python code
consumes it: `Point`, `MultiPoint`, empty, or any result with a
one-dimensional component (overlapping lines — skipped by the code). -/
inductive PolyInter where
  | empty
  | pt (p : Pt)
  | multipoint (ps : List Pt)
  | nonPoint
deriving DecidableEq

/-- shapely `lineA.intersection(lineB)` classified: if any segment pair
overlaps in a segment of positive length the result has a
one-dimensional component (`nonPoint`); otherwise it is the deduplicated
collection of intersection points. -/
def polyInter (la lb : List Pt) : PolyInter :=
  let results := (segsOf la).flatMap
    (fun s1 => (segsOf lb).map (fun s2 => segInter s1.1 s1.2 s2.1 s2.2))
  if results.any (fun r => match r with | .seg _ _ => true | _ => false) then .nonPoint
  else
    match (results.filterMap (fun r => match r with | .pt p => some p | _ => none)).dedup with
    | [] => .empty
    | [p] => .pt p
    | ps => .multipoint ps

/-- A recorded reference-line crossing: `(dist_along, mop_name,
intersection_point, mop_geometry)` of line 131. -/
structure Crossing where
  dist : ℚ
  name : String
  point : Pt
  geom : List Pt
deriving DecidableEq

/-- Lines 69–131 for a single `mop_row`: extend it, intersect with the
baseline, and record one crossing per intersection point; a non-point
intersection (or no intersection) contributes nothing (`continue`). -/
def mopCrossingsOne (rt : ℚ → ℚ) (line : List Pt) (idx : Nat) (row : MopRow) :
    Except GenError (List Crossing) :=
  match extendMop rt row.coords with
  | .error e => .error e
  | .ok ext =>
    match polyInter line ext with
    | .empty => .ok []
    | .nonPoint => .ok []
    | .pt p => .ok [⟨project rt line p, rowName row idx, p, row.coords⟩]
    | .multipoint ps => .ok (ps.map (fun p => ⟨project rt line p, rowName row idx, p, row.coords⟩))

/-- The `for idx, mop_row in mop_utm.iterrows()` loop (the GeoDataFrame
index is `0, 1, 2, …`): concatenate the per-row crossings, propagating
an `IndexError`. -/
def mopCrossingsAux (rt : ℚ → ℚ) (line : List Pt) :
    Nat → List MopRow → Except GenError (List Crossing)
  | _, [] => .ok []
  | i, r :: rest =>
    match mopCrossingsOne rt line i r with
    | .error e => .error e
    | .ok c =>
      match mopCrossingsAux rt line (i + 1) rest with
      | .error e => .error e
      | .ok cs => .ok (c ++ cs)

/-- Lines 61–134: all reference-line crossings, sorted ascending by
distance along the baseline (`mop_intersections.sort(key=...)`,
a stable ascending sort). -/
def mopCrossings (rt : ℚ → ℚ) (line : List Pt) (mops : List MopRow) :
    Except GenError (List Crossing) :=
  (mopCrossingsAux rt line 0 mops).map
    (List.insertionSort (fun a b => a.dist ≤ b.dist))

/-- Python `dict` building from an association list: inserting an
existing key overwrites its value in place (keeping the original key
position); a new key is appended. -/
def dictInsert (kvs : List (ℚ × List Pt)) (k : ℚ) (v : List Pt) : List (ℚ × List Pt) :=
  if kvs.any (fun p => p.1 = k) then
    kvs.map (fun p => if p.1 = k then (k, v) else p)
  else kvs ++ [(k, v)]

/-- Line 159: `{dist: geom for dist, name, point, geom in mop_intersections}`. -/
def mkDict (l : List (ℚ × List Pt)) : List (ℚ × List Pt) :=
  l.foldl (fun acc kv => dictInsert acc kv.1 kv.2) []

/-! ## Normal Field Builder: raw normals (lines 161–203) -/

/-- Lines 166–201 for sample `i`: the unit vector into the point from
its predecessor and the unit vector out of the point to its successor
(`(0,0)` absent a neighbour, and left unnormalized — hence zero — when
the neighbour coincides), combined one-sidedly at the endpoints and
averaged in the interior, then rotated 90° (`(dx,dy) → (-dy,dx)`) and
normalized; a zero-magnitude tangent yields `(0,0)`.  The per-segment
direction (lines 170–186): normalized when the magnitude is positive,
otherwise (coincident points) left as the raw — zero — difference. -/
def sideVec (rt : ℚ → ℚ) (a b : Pt) : ℚ × ℚ :=
  let dx := b.x - a.x
  let dy := b.y - a.y
  let mag := rt (dx ^ 2 + dy ^ 2)
  if 0 < mag then (dx / mag, dy / mag) else (dx, dy)

/-- Lines 166–201 for sample `i`, built from `sideVec` for each of the
two one-sided segments. -/
def rawNormalAt (rt : ℚ → ℚ) (pts : List Pt) (i : Nat) : ℚ × ℚ :=
  let pt := pts.getD i ⟨0, 0⟩
  let prev : ℚ × ℚ :=
    if 0 < i then sideVec rt (pts.getD (i - 1) ⟨0, 0⟩) pt else (0, 0)
  let next : ℚ × ℚ :=
    if i + 1 < pts.length then sideVec rt pt (pts.getD (i + 1) ⟨0, 0⟩) else (0, 0)
  let td : ℚ × ℚ :=
    if i = 0 then next
    else if i = pts.length - 1 then prev
    else ((prev.1 + next.1) / 2, (prev.2 + next.2) / 2)
  let mag := rt (td.1 ^ 2 + td.2 ^ 2)
  if 0 < mag then (-td.2 / mag, td.1 / mag) else (0, 0)

/-- The `baseline_normals` array. -/
def rawNormals (rt : ℚ → ℚ) (pts : List Pt) : List (ℚ × ℚ) :=
  (List.range pts.length).map (rawNormalAt rt pts)

/-! ## Normal Field Builder: smoothing (lines 205–219) -/

/-- `np.convolve(np.pad(xs, w/2, mode='edge'), np.ones(w)/w, 'valid')`:
edge-pad the series by `w/2` on both sides with the repeated boundary
values, then take each width-`w` window average. -/
def smoothSeries (w : Nat) (xs : List ℚ) : List ℚ :=
  let pad := w / 2
  let padded := List.replicate pad (xs.headD 0) ++ xs ++ List.replicate pad (xs.getLastD 0)
  (List.range (padded.length + 1 - w)).map
    (fun j => ((padded.drop j).take w).sum / (w : ℚ))

/-- Lines 207–219: smooth the two component series when the sample
count strictly exceeds the window, otherwise use the raw components
unchanged. -/
def smoothStage (w : Nat) (ns : List (ℚ × ℚ)) : List ℚ × List ℚ :=
  if w < ns.length then
    (smoothSeries w (ns.map Prod.fst), smoothSeries w (ns.map Prod.snd))
  else (ns.map Prod.fst, ns.map Prod.snd)

/-! ## Normal Field Builder: reference-orientation locking (lines 221–258) -/

/-- Lines 234–249: the reference line's local direction at the foot of
`pt` — interpolate the (original, unextended) reference geometry one
unit before and after the projected chainage and normalize the
difference; `none` when the difference has zero magnitude. -/
def mopLocalDir (rt : ℚ → ℚ) (geom : List Pt) (pt : Pt) : Option (ℚ × ℚ) :=
  let closest := project rt geom pt
  let d1 := max 0 (closest - 1)
  let d2 := min (polylineLength rt geom) (closest + 1)
  let p1 := interpolate rt geom d1
  let p2 := interpolate rt geom d2
  let mnx := p2.x - p1.x
  let mny := p2.y - p1.y
  let mag := rt (mnx ^ 2 + mny ^ 2)
  if 0 < mag then some (mnx / mag, mny / mag) else none

/-- Lines 234–257: the locked orientation — the local direction,
sign-flipped when its dot product with the smoothed baseline normal at
the sample is negative. -/
def mopOrientAt (rt : ℚ → ℚ) (geom : List Pt) (pt : Pt) (snx sny : ℚ) : Option (ℚ × ℚ) :=
  (mopLocalDir rt geom pt).map
    (fun d => if d.1 * snx + d.2 * sny < 0 then (-d.1, -d.2) else d)

/-- Lines 223–258: the `mop_indices` list — for each sample whose
distance matches a dict key within `0.01` (first matching key, then
`break`), the locked orientation when the local direction is
non-degenerate. -/
def mopIndicesDef (rt : ℚ → ℚ) (distances : List ℚ) (pts : List Pt)
    (dict : List (ℚ × List Pt)) (sx sy : List ℚ) : List (Nat × ℚ × ℚ) :=
  (List.range pts.length).filterMap (fun i =>
    match dict.find? (fun kv => decide (|distances.getD i 0 - kv.1| < 1 / 100)) with
    | some kv =>
      (mopOrientAt rt kv.2 (pts.getD i ⟨0, 0⟩) (sx.getD i 0) (sy.getD i 0)).map
        (fun mn => (i, mn.1, mn.2))
    | none => none)

/-! ## Normal Field Builder: influence blending (lines 260–292) -/

/-- Index distance `|i - j|`. -/
def natDist (i j : Nat) : Nat := max i j - min i j

/-- Lines 269–276: scan `mop_indices` keeping the entry with the
strictly smallest index distance (so the first entry wins ties). -/
def nearestMopAux (i : Nat) :
    Option (Nat × ℚ × ℚ) → List (Nat × ℚ × ℚ) → Option (Nat × ℚ × ℚ)
  | best, [] => best
  | best, e :: rest =>
    nearestMopAux i
      (match best with
       | none => some e
       | some b => if natDist i e.1 < natDist i b.1 then some e else some b) rest

/-- The nearest locked sample to index `i` (ties to the first found). -/
def nearestMop (l : List (Nat × ℚ × ℚ)) (i : Nat) : Option (Nat × ℚ × ℚ) :=
  nearestMopAux i none l

/-- Lines 278–289 for sample `i`: within the influence radius 10 of the
nearest locked sample, at index distance 0 use the locked orientation
exactly, otherwise blend it with the smoothed normal using weight
`1 - d/(10+1)`; outside the radius (or with no locked samples) keep the
smoothed normal. -/
def influenceAt (sx sy : List ℚ) (mopIdx : List (Nat × ℚ × ℚ)) (i : Nat) : ℚ × ℚ :=
  match nearestMop mopIdx i with
  | some (j, mx, my) =>
    if natDist i j ≤ 10 then
      if natDist i j = 0 then (mx, my)
      else
        let w := 1 - (natDist i j : ℚ) / (10 + 1)
        (w * mx + (1 - w) * sx.getD i 0, w * my + (1 - w) * sy.getD i 0)
    else (sx.getD i 0, sy.getD i 0)
  | none => (sx.getD i 0, sy.getD i 0)

/-- Lines 263–292: `final_nx/final_ny` — copies of the smoothed series
with entries `0 ≤ i < len(points_utm)` replaced by the blended
orientation (entries beyond the point count, which exist only for an
even window, stay untouched). -/
def finalSeries (ptsLen : Nat) (sx sy : List ℚ) (mopIdx : List (Nat × ℚ × ℚ)) :
    List ℚ × List ℚ :=
  ((List.range sx.length).map
      (fun i => if i < ptsLen then (influenceAt sx sy mopIdx i).1 else sx.getD i 0),
   (List.range sy.length).map
      (fun i => if i < ptsLen then (influenceAt sx sy mopIdx i).2 else sy.getD i 0))

/-! ## Transect Builder: emission (lines 294–312) -/

/-- The sample indices that emit a transect (final orientation of
non-zero magnitude; line 303 `if mag == 0: continue`). -/
def emittedIdx (rt : ℚ → ℚ) (ptsLen : Nat) (fx fy : List ℚ) : List Nat :=
  (List.range ptsLen).filter
    (fun i => decide (rt ((fx.getD i 0) ^ 2 + (fy.getD i 0) ^ 2) ≠ 0))

/-- Lines 296–312 for sample `i`: re-normalize the final orientation
and emit the segment from `point + n*(length/2)` to
`point - n*(length/2)`. -/
def transectAt (rt : ℚ → ℚ) (pts : List Pt) (fx fy : List ℚ) (length_m : ℚ)
    (i : Nat) : Pt × Pt :=
  let pt := pts.getD i ⟨0, 0⟩
  let nx := fx.getD i 0
  let ny := fy.getD i 0
  let mag := rt (nx ^ 2 + ny ^ 2)
  let ux := nx / mag
  let uy := ny / mag
  let halfLen := length_m / 2
  (⟨pt.x + ux * halfLen, pt.y + uy * halfLen⟩, ⟨pt.x - ux * halfLen, pt.y - uy * halfLen⟩)

/-- Lines 294–312: the `transect_lines` list. -/
def buildTransects (rt : ℚ → ℚ) (pts : List Pt) (fx fy : List ℚ) (length_m : ℚ) :
    List (Pt × Pt) :=
  (List.range pts.length).filterMap (fun i =>
    if rt ((fx.getD i 0) ^ 2 + (fy.getD i 0) ^ 2) = 0 then none
    else some (transectAt rt pts fx fy length_m i))

/-! ## Transect Builder: labeling (lines 314–361) -/

/-- Python `f"{n:03d}"`. -/
def zfill3 (n : Nat) : String :=
  let s := toString n
  String.mk (List.replicate (3 - s.length) '0') ++ s

/-- Lines 336–343: scan the (distance-sorted) crossings, remembering
the last one with distance strictly below `d`, stopping at the first
one at or beyond `d` (`else: break`). -/
def lastBefore (d : ℚ) : List (ℚ × String) → Option (ℚ × String)
  | [] => none
  | m :: rest => if m.1 < d then some ((lastBefore d rest).getD m) else none

/-- Lines 319–361 for sample `i` of the labeled range: a crossing name
within tolerance 0.01; else `"<name>_<NNN>"` counting the non-crossing
samples strictly between the preceding crossing and this sample; else
`"start_<NNN>"` from the 1-based position. -/
def labelAt (dists : List ℚ) (mops : List (ℚ × String)) (i : Nat) : String :=
  let d := dists.getD i 0
  match mops.find? (fun m => decide (|d - m.1| < 1 / 100)) with
  | some m => m.2
  | none =>
    match lastBefore d mops with
    | some mb =>
      let cnt := ((List.range i).filter (fun j =>
        let cd := dists.getD j 0
        decide (mb.1 < cd) && decide (cd < d) &&
          ! mops.any (fun m => decide (|cd - m.1| < 1 / 100)))).length
      mb.2 ++ "_" ++ zfill3 (cnt + 1)
    | none => "start_" ++ zfill3 (i + 1)

/-- Lines 318–361: the labels of `distances[:len(transect_lines)]`. -/
def labelsFor (dists : List ℚ) (mops : List (ℚ × String)) : List String :=
  (List.range dists.length).map (labelAt dists mops)

/-! ## The full function (lines 29–380) -/

/-- A row of the returned `transects_utm` GeoDataFrame. -/
structure TransectRow where
  geometry : Pt × Pt
  transect_id : Nat
  dist_along : ℚ
  label : String
deriving DecidableEq

/-- A row of the returned `points_gdf` GeoDataFrame (its `label` column
is added only when `len(labels) == len(points_gdf)`). -/
structure PointRow where
  geometry : Pt
  point_id : Nat
  dist_along : ℚ
  label : Option String
deriving DecidableEq

/-- `generate_transects`, from the projected planar baseline onward:
validation, reference-crossing detection, resampling, raw normals,
smoothing, orientation locking and blending, emission, labeling, and
assembly of the two returned row collections. -/
def generateTransects (rt : ℚ → ℚ) (lineUtm : List Pt) (spacing_m length_m : ℚ)
    (smoothing_window : Nat) (mops : List MopRow) :
    Except GenError (List TransectRow × List PointRow) :=
  let totalLen := polylineLength rt lineUtm
  if totalLen ≤ spacing_m then .error (.tooShort totalLen spacing_m)
  else
    match mopCrossings rt lineUtm mops with
    | .error e => .error e
    | .ok cs =>
      let dists := sampleDistances totalLen spacing_m (cs.map (fun c => c.dist))
      let pts := dists.map (interpolate rt lineUtm)
      let dict := mkDict (cs.map (fun c => (c.dist, c.geom)))
      let raw := rawNormals rt pts
      let sxy := smoothStage smoothing_window raw
      let mopIdx := mopIndicesDef rt dists pts dict sxy.1 sxy.2
      let fxy := finalSeries pts.length sxy.1 sxy.2 mopIdx
      let tls := buildTransects rt pts fxy.1 fxy.2 length_m
      let labels := labelsFor (dists.take tls.length) (cs.map (fun c => (c.dist, c.name)))
      let trows := (List.range tls.length).map (fun i =>
        TransectRow.mk (tls.getD i (⟨0, 0⟩, ⟨0, 0⟩)) i (dists.getD i 0) (labels.getD i ""))
      let prows := (List.range pts.length).map (fun i =>
        PointRow.mk (pts.getD i ⟨0, 0⟩) i (dists.getD i 0)
          (if labels.length = pts.length then some (labels.getD i "") else none))
      .ok (trows, prows)

/-! ## Error-path lemmas -/

theorem extendMop_ok_shape (rt : ℚ → ℚ) (coords : List Pt) (h : 2 ≤ coords.length) :
    ∃ ext, extendMop rt coords = .ok ext := by
  match coords, h with
  | c0 :: c1 :: rest, _ => exact ⟨_, rfl⟩

theorem extendMop_err_shape (rt : ℚ → ℚ) (coords : List Pt) (e : GenError)
    (h : extendMop rt coords = .error e) : e = .indexError ∧ coords.length < 2 := by
  match coords with
  | [] => refine ⟨?_, by simp⟩; injection h with h2; exact h2.symm
  | [c] => refine ⟨?_, by simp⟩; injection h with h2; exact h2.symm
  | c0 :: c1 :: rest => exact absurd h (by simp [extendMop])

theorem mopCrossingsOne_err (rt : ℚ → ℚ) (line : List Pt) (idx : Nat) (row : MopRow)
    (e : GenError) (h : mopCrossingsOne rt line idx row = .error e) : e = .indexError := by
  unfold mopCrossingsOne at h
  split at h
  next e2 hx =>
    injection h with h2
    exact h2 ▸ (extendMop_err_shape rt row.coords e2 hx).1
  next ext hx =>
    split at h <;> exact Except.noConfusion h

theorem mopCrossingsAux_err (rt : ℚ → ℚ) (line : List Pt) :
    ∀ (mops : List MopRow) (i : Nat) (e : GenError),
      mopCrossingsAux rt line i mops = .error e → e = .indexError := by
  intro mops
  induction mops with
  | nil => intro i e h; exact Except.noConfusion h
  | cons r rest ih =>
    intro i e h
    unfold mopCrossingsAux at h
    split at h
    next e2 h1 =>
      injection h with h2
      exact h2 ▸ mopCrossingsOne_err rt line i r e2 h1
    next cl h1 =>
      split at h
      next e3 h2 =>
        injection h with h3
        exact h3 ▸ ih (i + 1) e3 h2
      next cs h2 => exact Except.noConfusion h

theorem mopCrossings_err (rt : ℚ → ℚ) (line : List Pt) (mops : List MopRow)
    (e : GenError) (h : mopCrossings rt line mops = .error e) : e = .indexError := by
  unfold mopCrossings at h
  cases hx : mopCrossingsAux rt line 0 mops with
  | error e2 =>
    rw [hx] at h
    injection h with h2
    exact h2 ▸ mopCrossingsAux_err rt line mops 0 e2 hx
  | ok cs =>
    rw [hx] at h
    exact Except.noConfusion h

/-! ## C9: the input-too-short error -/

/-- C9: `generate_transects` raises the input-too-short error iff the
projected baseline length is at most `spacing_m` (the only accepted
inputs are those with length strictly greater than the spacing); the
error value reports the measured length and the requested spacing, and
no output collections are produced; when the length strictly exceeds
the spacing this error is never raised. -/
theorem c9_too_short (rt : ℚ → ℚ) (line : List Pt) (s L : ℚ) (w : Nat)
    (mops : List MopRow) :
    (polylineLength rt line ≤ s →
      generateTransects rt line s L w mops =
        .error (.tooShort (polylineLength rt line) s) ∧
      ∀ out, generateTransects rt line s L w mops ≠ .ok out) ∧
    (s < polylineLength rt line →
      ∀ a b, generateTransects rt line s L w mops ≠ .error (.tooShort a b)) := by
  constructor
  · intro hle
    have h1 : generateTransects rt line s L w mops =
        .error (.tooShort (polylineLength rt line) s) := by
      unfold generateTransects
      rw [if_pos hle]
    exact ⟨h1, fun out hok => by rw [h1] at hok; exact Except.noConfusion hok⟩
  · intro hlt a b h
    unfold generateTransects at h
    rw [if_neg (not_le.mpr hlt)] at h
    split at h
    next e hx =>
      injection h with h2
      have h3 := mopCrossings_err rt line mops e hx
      rw [h3] at h2
      exact GenError.noConfusion h2
    next cs hx => exact Except.noConfusion h

/-- Witness for C9 (the spec's too-short scenario): a baseline of
length 50 with spacing 100 yields the too-short error carrying both
values. -/
theorem c9_witness :
    polylineLength ratSqrt [⟨0, 0⟩, ⟨50, 0⟩] = 50 ∧
    generateTransects ratSqrt [⟨0, 0⟩, ⟨50, 0⟩] 100 20 9 [] =
      .error (.tooShort (polylineLength ratSqrt [⟨0, 0⟩, ⟨50, 0⟩]) 100) :=
  ⟨by decide, ((c9_too_short ratSqrt [⟨0, 0⟩, ⟨50, 0⟩] 100 20 9 []).1 (by decide)).1⟩

/-! ## C3: the merged sample-distance set -/

theorem arangeQ_mem (stop step : ℚ) (hstep : 0 < step) (d : ℚ) :
    d ∈ arangeQ stop step ↔ ∃ k : ℕ, d = (k : ℚ) * step ∧ d < stop := by
  unfold arangeQ
  constructor
  · intro hd
    rcases List.mem_map.mp hd with ⟨k, hk, hkd⟩
    rw [List.mem_range] at hk
    refine ⟨k, hkd.symm, ?_⟩
    rw [← hkd]
    have h1 : (k : ℤ) < ⌈stop / step⌉ := Int.lt_toNat.mp hk
    have h2 : ((k : ℤ) : ℚ) < stop / step := Int.lt_ceil.mp h1
    have h3 : (k : ℚ) < stop / step := by exact_mod_cast h2
    exact (lt_div_iff₀ hstep).mp h3
  · rintro ⟨k, rfl, hlt⟩
    apply List.mem_map.mpr
    refine ⟨k, List.mem_range.mpr ?_, rfl⟩
    rw [Int.lt_toNat, Int.lt_ceil]
    have h3 : (k : ℚ) < stop / step := (lt_div_iff₀ hstep).mpr hlt
    exact_mod_cast h3

theorem arangeQ_get (stop step : ℚ) (k : ℕ) (h : k < (arangeQ stop step).length) :
    (arangeQ stop step).get ⟨k, h⟩ = (k : ℚ) * step := by
  simp only [arangeQ, List.get_eq_getElem, List.getElem_map, List.getElem_range]

theorem sampleDistances_sorted (L s : ℚ) (refs : List ℚ) :
    List.Sorted (· ≤ ·) (sampleDistances L s refs) :=
  List.sorted_insertionSort (· ≤ ·) _

theorem sampleDistances_perm (L s : ℚ) (refs : List ℚ) :
    (sampleDistances L s refs).Perm
      ((arangeQ L s).filter
        (fun d => ¬ refs.any (fun m => decide (|d - m| < s * (3/10)))) ++ refs) :=
  List.perm_insertionSort (· ≤ ·) _

/-- C3: for an accepted input the final sample-distance list is the
ascending sort (`Sorted` plus `Perm`) of: the regular distances — the
multiples `k * spacing` with `0 ≤ k * spacing < totalLen`, listed in
order as `0, spacing, 2*spacing, …` — that are not strictly within
`0.3 * spacing` of any reference-crossing distance, together with all
reference-crossing distances. -/
theorem c3_sample_distances (L s : ℚ) (hs : 0 < s) (refs : List ℚ) :
    List.Sorted (· ≤ ·) (sampleDistances L s refs) ∧
    (sampleDistances L s refs).Perm
      ((arangeQ L s).filter
        (fun d => decide (∀ r ∈ refs, ¬ |d - r| < s * (3/10))) ++ refs) ∧
    (∀ d : ℚ, d ∈ arangeQ L s ↔ ∃ k : ℕ, d = (k : ℚ) * s ∧ d < L) ∧
    (∀ (k : ℕ) (h : k < (arangeQ L s).length),
      (arangeQ L s).get ⟨k, h⟩ = (k : ℚ) * s) := by
  refine ⟨sampleDistances_sorted L s refs, ?_, arangeQ_mem L s hs, arangeQ_get L s⟩
  have hfilter : (arangeQ L s).filter
      (fun d => ¬ refs.any (fun m => decide (|d - m| < s * (3/10)))) =
      (arangeQ L s).filter (fun d => decide (∀ r ∈ refs, ¬ |d - r| < s * (3/10))) := by
    apply List.filter_congr
    intro d _
    simp [List.any_eq_true]
  have h2 := sampleDistances_perm L s refs
  rw [hfilter] at h2
  exact h2

/-- Witness for C3 at the reference-snapping inputs: total length 20,
spacing 2, one crossing at distance 5 (the regular distances 4 and 6
are not within 0.6 of it, so all multiples remain, plus 5). -/
theorem c3_witness :
    (0 : ℚ) < 2 ∧
    sampleDistances 20 2 [5] = [0, 2, 4, 5, 6, 8, 10, 12, 14, 16, 18] ∧
    (List.Sorted (· ≤ ·) (sampleDistances 20 2 [5]) ∧
      (sampleDistances 20 2 [5]).Perm
        ((arangeQ 20 2).filter
          (fun d => decide (∀ r ∈ [(5 : ℚ)], ¬ |d - r| < 2 * (3/10))) ++ [5]) ∧
      (∀ d : ℚ, d ∈ arangeQ 20 2 ↔ ∃ k : ℕ, d = (k : ℚ) * 2 ∧ d < 20) ∧
      (∀ (k : ℕ) (h : k < (arangeQ 20 2).length),
        (arangeQ 20 2).get ⟨k, h⟩ = (k : ℚ) * 2)) :=
  ⟨by decide, by decide, c3_sample_distances 20 2 (by decide) [5]⟩

/-! ## C7: smoothing -/

/-- Counterexample to C7 as stated: the even window 2 (a positive
integer, hence an accepted `smoothing_window`) with three samples —
smoothing applies (3 > 2), but the convolution over the edge-padded
series has length 4, not 3, so the smoothed series is not of the same
length as the input. -/
theorem c7_counterexample :
    2 < ([((0:ℚ), (1:ℚ)), (1, 0), (0, 1)] : List (ℚ × ℚ)).length ∧
    (smoothStage 2 [((0:ℚ), (1:ℚ)), (1, 0), (0, 1)]).1.length = 4 ∧
    ([((0:ℚ), (1:ℚ)), (1, 0), (0, 1)] : List (ℚ × ℚ)).length = 3 ∧
    (4 : ℕ) ≠ 3 := by decide

/-- C7 (amended): the raw normals are smoothed iff the sample count
strictly exceeds `smoothing_window`; when smoothed each component
series becomes the width-`w` moving average of the series edge-padded
by `w/2` repeated boundary values on each side, of length
`n + 2*(w/2) + 1 - w` — equal to the input length `n` exactly when the
window is odd (the expected case; an even window yields `n + 1`); when
the sample count is at most the window the raw components are used
unchanged; and the ≈5-sample baseline with the default window 9 does
not fail and still emits transects (five of them). -/
theorem c7_smoothing (w : Nat) (ns : List (ℚ × ℚ)) :
    (w < ns.length →
      smoothStage w ns =
        (smoothSeries w (ns.map Prod.fst), smoothSeries w (ns.map Prod.snd))) ∧
    (ns.length ≤ w → smoothStage w ns = (ns.map Prod.fst, ns.map Prod.snd)) ∧
    (∀ xs : List ℚ, (smoothSeries w xs).length = xs.length + 2 * (w / 2) + 1 - w) ∧
    (Odd w → ∀ xs : List ℚ, (smoothSeries w xs).length = xs.length) ∧
    (∀ (xs : List ℚ) (j : ℕ) (hj : j < (smoothSeries w xs).length),
      (smoothSeries w xs).get ⟨j, hj⟩ =
        (((List.replicate (w / 2) (xs.headD 0) ++ xs ++
            List.replicate (w / 2) (xs.getLastD 0)).drop j).take w).sum / (w : ℚ)) ∧
    (generateTransects ratSqrt [⟨0, 0⟩, ⟨5, 0⟩] 1 20 9 []).map
      (fun out => out.1.length) = .ok 5 := by
  have hlen : ∀ xs : List ℚ,
      (smoothSeries w xs).length = xs.length + 2 * (w / 2) + 1 - w := by
    intro xs
    unfold smoothSeries
    simp only [List.length_map, List.length_range, List.length_append,
      List.length_replicate]
    omega
  refine ⟨?_, ?_, hlen, ?_, ?_, by decide⟩
  · intro h
    unfold smoothStage
    rw [if_pos h]
  · intro h
    unfold smoothStage
    rw [if_neg (not_lt.mpr h)]
  · rintro ⟨k, hk⟩ xs
    rw [hlen xs]
    omega
  · intro xs j hj
    simp only [smoothSeries, List.get_eq_getElem, List.getElem_map, List.getElem_range]

/-- Witness for C7 at a short line: five samples with the default
window 9 skip smoothing and keep the raw components unchanged. -/
theorem c7_witness :
    ([((0:ℚ), (1:ℚ)), (0, 1), (0, 1), (0, 1), (0, 1)] : List (ℚ × ℚ)).length ≤ 9 ∧
    smoothStage 9 [((0:ℚ), (1:ℚ)), (0, 1), (0, 1), (0, 1), (0, 1)] =
      (([((0:ℚ), (1:ℚ)), (0, 1), (0, 1), (0, 1), (0, 1)] : List (ℚ × ℚ)).map Prod.fst,
       ([((0:ℚ), (1:ℚ)), (0, 1), (0, 1), (0, 1), (0, 1)] : List (ℚ × ℚ)).map Prod.snd) :=
  ⟨by decide, (c7_smoothing 9 _).2.1 (by decide)⟩

/-! ## C8: emitted transect geometry -/

theorem filterMap_if_eq_filter_map {α β : Type} (p : α → Prop) [DecidablePred p]
    (f : α → β) (l : List α) :
    (l.filterMap (fun a => if p a then none else some (f a))) =
      (l.filter (fun a => decide ¬ p a)).map f := by
  induction l with
  | nil => rfl
  | cons a t ih =>
    by_cases h : p a <;>
      simp [List.filterMap_cons, List.filter_cons, h, ih]

/-- C8: the emitted transects are exactly the images of the samples of
non-zero final orientation magnitude (so zero-magnitude samples emit
nothing); each is the segment `point ± n*(length/2)` for the
re-normalized orientation `n` (`transectAt`); and whenever the square
root is exact at the orientation magnitude and at `length_m ^ 2`, the
planar Euclidean distance between the two endpoints is exactly
`length_m`. -/
theorem c8_transect_geometry (rt : ℚ → ℚ) (pts : List Pt) (fx fy : List ℚ) (L : ℚ) :
    buildTransects rt pts fx fy L =
      (emittedIdx rt pts.length fx fy).map (transectAt rt pts fx fy L) ∧
    (∀ i : ℕ, i ∈ emittedIdx rt pts.length fx fy ↔
      i < pts.length ∧ rt ((fx.getD i 0) ^ 2 + (fy.getD i 0) ^ 2) ≠ 0) ∧
    (∀ i : ℕ,
      rt ((fx.getD i 0) ^ 2 + (fy.getD i 0) ^ 2) ≠ 0 →
      rt ((fx.getD i 0) ^ 2 + (fy.getD i 0) ^ 2) *
          rt ((fx.getD i 0) ^ 2 + (fy.getD i 0) ^ 2) =
        (fx.getD i 0) ^ 2 + (fy.getD i 0) ^ 2 →
      rt (L ^ 2) = L →
      segLen rt (transectAt rt pts fx fy L i).1 (transectAt rt pts fx fy L i).2 = L) := by
  refine ⟨?_, ?_, ?_⟩
  · unfold buildTransects emittedIdx
    exact filterMap_if_eq_filter_map
      (fun i => rt ((fx.getD i 0) ^ 2 + (fy.getD i 0) ^ 2) = 0)
      (transectAt rt pts fx fy L) (List.range pts.length)
  · intro i
    unfold emittedIdx
    simp [List.mem_filter]
  · intro i hne hm hL
    unfold transectAt segLen
    set nx := fx.getD i 0 with hnx
    set ny := fy.getD i 0 with hny
    set m := rt (nx ^ 2 + ny ^ 2) with hmm
    have hinner :
        ((pts.getD i ⟨0, 0⟩).x - nx / m * (L / 2) -
            ((pts.getD i ⟨0, 0⟩).x + nx / m * (L / 2))) ^ 2 +
          ((pts.getD i ⟨0, 0⟩).y - ny / m * (L / 2) -
            ((pts.getD i ⟨0, 0⟩).y + ny / m * (L / 2))) ^ 2 = L ^ 2 := by
      have expand :
          ((pts.getD i ⟨0, 0⟩).x - nx / m * (L / 2) -
              ((pts.getD i ⟨0, 0⟩).x + nx / m * (L / 2))) ^ 2 +
            ((pts.getD i ⟨0, 0⟩).y - ny / m * (L / 2) -
              ((pts.getD i ⟨0, 0⟩).y + ny / m * (L / 2))) ^ 2 =
            (nx ^ 2 + ny ^ 2) * L ^ 2 / (m * m) := by
        field_simp
        ring
      have hnz : nx ^ 2 + ny ^ 2 ≠ 0 := by
        rw [← hm]; exact mul_ne_zero hne hne
      rw [expand, hm]
      exact mul_div_cancel_left₀ _ hnz
    rw [hinner, hL]

/-- Witness for C8: one sample at the origin with final orientation
(3/5, 4/5) (unit magnitude, exact under `ratSqrt`) and `length_m = 20`
emits a transect whose endpoints are exactly 20 apart. -/
theorem c8_witness :
    ratSqrt (((3/5 : ℚ)) ^ 2 + ((4/5 : ℚ)) ^ 2) ≠ 0 ∧
    ratSqrt (((3/5 : ℚ)) ^ 2 + ((4/5 : ℚ)) ^ 2) *
        ratSqrt (((3/5 : ℚ)) ^ 2 + ((4/5 : ℚ)) ^ 2) =
      ((3/5 : ℚ)) ^ 2 + ((4/5 : ℚ)) ^ 2 ∧
    ratSqrt ((20 : ℚ) ^ 2) = 20 ∧
    segLen ratSqrt
      (transectAt ratSqrt [⟨0, 0⟩] [3/5] [4/5] 20 0).1
      (transectAt ratSqrt [⟨0, 0⟩] [3/5] [4/5] 20 0).2 = 20 := by
  refine ⟨by decide, by decide, by decide, ?_⟩
  exact (c8_transect_geometry ratSqrt [⟨0, 0⟩] [3/5] [4/5] 20).2.2 0
    (by decide) (by decide) (by decide)

/-! ## C6: raw normals are rotations of the normalized tangent -/

/-- The claim's "unit vector" of `(vx, vy)` under the model square
root: each component divided by the root of the squared magnitude
(zero input divides by zero and stays zero). -/
def unitOrZero (rt : ℚ → ℚ) (vx vy : ℚ) : ℚ × ℚ :=
  (vx / rt (vx ^ 2 + vy ^ 2), vy / rt (vx ^ 2 + vy ^ 2))

/-- The claim's tangent at sample `i`: the average of the unit vector
into the point (from the previous sample) and the unit vector out of
the point (to the next sample); endpoints use only the single
one-sided vector. -/
def specTangent (rt : ℚ → ℚ) (pts : List Pt) (i : Nat) : ℚ × ℚ :=
  let pt := pts.getD i ⟨0, 0⟩
  let vin : ℚ × ℚ :=
    if 0 < i then
      unitOrZero rt (pt.x - (pts.getD (i - 1) ⟨0, 0⟩).x)
        (pt.y - (pts.getD (i - 1) ⟨0, 0⟩).y)
    else (0, 0)
  let vout : ℚ × ℚ :=
    if i + 1 < pts.length then
      unitOrZero rt ((pts.getD (i + 1) ⟨0, 0⟩).x - pt.x)
        ((pts.getD (i + 1) ⟨0, 0⟩).y - pt.y)
    else (0, 0)
  if i = 0 then vout
  else if i = pts.length - 1 then vin
  else ((vin.1 + vout.1) / 2, (vin.2 + vout.2) / 2)

theorem sq_sum_zero {dx dy : ℚ} (h : dx ^ 2 + dy ^ 2 ≤ 0) : dx = 0 ∧ dy = 0 := by
  constructor <;> nlinarith [sq_nonneg dx, sq_nonneg dy]

theorem sideVec_eq_unitOrZero (rt : ℚ → ℚ) (hrt : SqrtPos rt) (a b : Pt) :
    sideVec rt a b = unitOrZero rt (b.x - a.x) (b.y - a.y) := by
  unfold sideVec unitOrZero
  by_cases h : 0 < rt ((b.x - a.x) ^ 2 + (b.y - a.y) ^ 2)
  · rw [if_pos h]
  · rw [if_neg h]
    have hv : (b.x - a.x) ^ 2 + (b.y - a.y) ^ 2 ≤ 0 := by
      by_contra hpos
      exact h (((hrt _).1).mpr (lt_of_not_le hpos))
    rcases sq_sum_zero hv with ⟨h1, h2⟩
    rw [h1, h2]
    norm_num

theorem rawNormalAt_eq (rt : ℚ → ℚ) (hrt : SqrtPos rt) (pts : List Pt) (i : Nat) :
    rawNormalAt rt pts i =
      (-(unitOrZero rt (specTangent rt pts i).1 (specTangent rt pts i).2).2,
        (unitOrZero rt (specTangent rt pts i).1 (specTangent rt pts i).2).1) := by
  unfold rawNormalAt specTangent
  simp only [sideVec_eq_unitOrZero rt hrt]
  set t : ℚ × ℚ :=
    (let pt := pts.getD i ⟨0, 0⟩
     let vin : ℚ × ℚ :=
       if 0 < i then
         unitOrZero rt (pt.x - (pts.getD (i - 1) ⟨0, 0⟩).x)
           (pt.y - (pts.getD (i - 1) ⟨0, 0⟩).y)
       else (0, 0)
     let vout : ℚ × ℚ :=
       if i + 1 < pts.length then
         unitOrZero rt ((pts.getD (i + 1) ⟨0, 0⟩).x - pt.x)
           ((pts.getD (i + 1) ⟨0, 0⟩).y - pt.y)
       else (0, 0)
     if i = 0 then vout
     else if i = pts.length - 1 then vin
     else ((vin.1 + vout.1) / 2, (vin.2 + vout.2) / 2)) with ht
  by_cases h : 0 < rt (t.1 ^ 2 + t.2 ^ 2)
  · rw [if_pos h]
    unfold unitOrZero
    rw [neg_div]
  · rw [if_neg h]
    have hv : t.1 ^ 2 + t.2 ^ 2 ≤ 0 := by
      by_contra hpos
      exact h (((hrt _).1).mpr (lt_of_not_le hpos))
    rcases sq_sum_zero hv with ⟨h1, h2⟩
    unfold unitOrZero
    rw [h1, h2]
    norm_num

/-- C6: the raw (pre-smoothing) normal at each sample equals the
90-degree rotation `(dx,dy) → (-dy,dx)` of the normalized tangent,
where the tangent averages the unit vectors into and out of the point
(one-sided at the endpoints); consequently the raw normal is exactly
orthogonal to that tangent, and a zero tangent yields the zero
vector. -/
theorem c6_raw_normal (rt : ℚ → ℚ) (hrt : SqrtPos rt) (pts : List Pt) (i : Nat)
    (_hi : i < pts.length) :
    rawNormalAt rt pts i =
      (-(unitOrZero rt (specTangent rt pts i).1 (specTangent rt pts i).2).2,
        (unitOrZero rt (specTangent rt pts i).1 (specTangent rt pts i).2).1) ∧
    (rawNormalAt rt pts i).1 * (specTangent rt pts i).1 +
      (rawNormalAt rt pts i).2 * (specTangent rt pts i).2 = 0 ∧
    (specTangent rt pts i = (0, 0) → rawNormalAt rt pts i = (0, 0)) := by
  have h1 := rawNormalAt_eq rt hrt pts i
  refine ⟨h1, ?_, ?_⟩
  · rw [h1]
    unfold unitOrZero
    ring
  · intro h0
    rw [h1, h0]
    unfold unitOrZero
    norm_num

/-- Witness for C6: three collinear samples along the 3-4-5 direction;
at the middle sample the tangent is `(3/5, 4/5)` and the raw normal its
rotation `(-4/5, 3/5)`. -/
theorem c6_witness :
    (1 : ℕ) < ([⟨0, 0⟩, ⟨3, 4⟩, ⟨6, 8⟩] : List Pt).length ∧
    rawNormalAt ratSqrt [⟨0, 0⟩, ⟨3, 4⟩, ⟨6, 8⟩] 1 = (-4/5, 3/5) ∧
    specTangent ratSqrt [⟨0, 0⟩, ⟨3, 4⟩, ⟨6, 8⟩] 1 = (3/5, 4/5) ∧
    (rawNormalAt ratSqrt [⟨0, 0⟩, ⟨3, 4⟩, ⟨6, 8⟩] 1 =
      (-(unitOrZero ratSqrt (specTangent ratSqrt [⟨0, 0⟩, ⟨3, 4⟩, ⟨6, 8⟩] 1).1
          (specTangent ratSqrt [⟨0, 0⟩, ⟨3, 4⟩, ⟨6, 8⟩] 1).2).2,
        (unitOrZero ratSqrt (specTangent ratSqrt [⟨0, 0⟩, ⟨3, 4⟩, ⟨6, 8⟩] 1).1
          (specTangent ratSqrt [⟨0, 0⟩, ⟨3, 4⟩, ⟨6, 8⟩] 1).2).1) ∧
      (rawNormalAt ratSqrt [⟨0, 0⟩, ⟨3, 4⟩, ⟨6, 8⟩] 1).1 *
          (specTangent ratSqrt [⟨0, 0⟩, ⟨3, 4⟩, ⟨6, 8⟩] 1).1 +
        (rawNormalAt ratSqrt [⟨0, 0⟩, ⟨3, 4⟩, ⟨6, 8⟩] 1).2 *
          (specTangent ratSqrt [⟨0, 0⟩, ⟨3, 4⟩, ⟨6, 8⟩] 1).2 = 0 ∧
      (specTangent ratSqrt [⟨0, 0⟩, ⟨3, 4⟩, ⟨6, 8⟩] 1 = (0, 0) →
        rawNormalAt ratSqrt [⟨0, 0⟩, ⟨3, 4⟩, ⟨6, 8⟩] 1 = (0, 0))) :=
  ⟨by decide, by decide, by decide,
    c6_raw_normal ratSqrt ratSqrt_sqrtPos [⟨0, 0⟩, ⟨3, 4⟩, ⟨6, 8⟩] 1 (by decide)⟩

/-! ## The shape of a successful run -/

theorem generateTransects_ok_shape (rt : ℚ → ℚ) (line : List Pt) (s L : ℚ) (w : Nat)
    (mops : List MopRow) (cs : List Crossing) (ts : List TransectRow) (ps : List PointRow)
    (dists : List ℚ) (pts : List Pt) (dict : List (ℚ × List Pt))
    (sxy : List ℚ × List ℚ) (mopIdx : List (Nat × ℚ × ℚ)) (fxy : List ℚ × List ℚ)
    (tls : List (Pt × Pt)) (labels : List String)
    (hcs : mopCrossings rt line mops = .ok cs)
    (hd : dists = sampleDistances (polylineLength rt line) s (cs.map (fun c => c.dist)))
    (hp : pts = dists.map (interpolate rt line))
    (hdict : dict = mkDict (cs.map (fun c => (c.dist, c.geom))))
    (hsxy : sxy = smoothStage w (rawNormals rt pts))
    (hmi : mopIdx = mopIndicesDef rt dists pts dict sxy.1 sxy.2)
    (hf : fxy = finalSeries pts.length sxy.1 sxy.2 mopIdx)
    (htl : tls = buildTransects rt pts fxy.1 fxy.2 L)
    (hlb : labels = labelsFor (dists.take tls.length) (cs.map (fun c => (c.dist, c.name))))
    (hok : generateTransects rt line s L w mops = .ok (ts, ps)) :
    ts = (List.range tls.length).map (fun i =>
      TransectRow.mk (tls.getD i (⟨0, 0⟩, ⟨0, 0⟩)) i (dists.getD i 0) (labels.getD i "")) ∧
    ps = (List.range pts.length).map (fun i =>
      PointRow.mk (pts.getD i ⟨0, 0⟩) i (dists.getD i 0)
        (if labels.length = pts.length then some (labels.getD i "") else none)) := by
  subst hd hp hdict hsxy hmi hf htl hlb
  simp only [generateTransects] at hok
  rw [hcs] at hok
  by_cases hcond : polylineLength rt line ≤ s
  · rw [if_pos hcond] at hok
    exact Except.noConfusion hok
  · rw [if_neg hcond] at hok
    injection hok with hok2
    injection hok2 with h1 h2
    exact ⟨h1.symm, h2.symm⟩

/-! ## C1: count invariants -/

/-- Counterexample to C1 as stated: a baseline that doubles back on
itself (total length 20 > spacing 8) has three sample distances and so
three point rows, but the middle sample's tangent vectors cancel, its
normal is the zero vector, and its transect is dropped — the two
returned collections have different lengths. -/
theorem c1_counterexample :
    (generateTransects ratSqrt [⟨0, 0⟩, ⟨10, 0⟩, ⟨0, 0⟩] 8 20 9 []).map
      (fun out => (out.1.length, out.2.length)) = .ok (2, 3) ∧ (2 : ℕ) ≠ 3 := by decide

/-- C1 (amended): for every accepted input the points collection has
exactly one row per sample distance, and the transects collection has
at most as many rows (equality can fail when a zero-magnitude
orientation drops a transect). -/
theorem c1_counts (rt : ℚ → ℚ) (line : List Pt) (s L : ℚ) (w : Nat)
    (mops : List MopRow) (cs : List Crossing) (ts : List TransectRow) (ps : List PointRow)
    (hcs : mopCrossings rt line mops = .ok cs)
    (hok : generateTransects rt line s L w mops = .ok (ts, ps)) :
    ps.length =
      (sampleDistances (polylineLength rt line) s (cs.map (fun c => c.dist))).length ∧
    ts.length ≤ ps.length := by
  obtain ⟨hts, hps⟩ := generateTransects_ok_shape rt line s L w mops cs ts ps
    _ _ _ _ _ _ _ _ hcs rfl rfl rfl rfl rfl rfl rfl rfl hok
  constructor
  · rw [hps]
    simp
  · rw [hts, hps]
    simp only [List.length_map, List.length_range]
    calc (buildTransects rt _ _ _ L).length
        ≤ (List.range ((sampleDistances (polylineLength rt line) s
            (cs.map (fun c => c.dist))).map (interpolate rt line)).length).length :=
          List.length_filterMap_le _ _
      _ = _ := by simp

/-- Witness for C1: a 6 m baseline with spacing 4 — two sample
distances, two point rows, two transect rows. -/
theorem c1_witness :
    mopCrossings ratSqrt [⟨0, 0⟩, ⟨6, 0⟩] [] = .ok [] ∧
    generateTransects ratSqrt [⟨0, 0⟩, ⟨6, 0⟩] 4 20 9 [] = .ok
      ([⟨(⟨0, 10⟩, ⟨0, -10⟩), 0, 0, "start_001"⟩,
        ⟨(⟨4, 10⟩, ⟨4, -10⟩), 1, 4, "start_002"⟩],
       [⟨⟨0, 0⟩, 0, 0, some "start_001"⟩, ⟨⟨4, 0⟩, 1, 4, some "start_002"⟩]) ∧
    (([⟨⟨0, 0⟩, 0, 0, some "start_001"⟩, ⟨⟨4, 0⟩, 1, 4, some "start_002"⟩] :
        List PointRow).length =
      (sampleDistances (polylineLength ratSqrt [⟨0, 0⟩, ⟨6, 0⟩]) 4
        (([] : List Crossing).map (fun c => c.dist))).length ∧
     ([⟨(⟨0, 10⟩, ⟨0, -10⟩), 0, 0, "start_001"⟩,
       ⟨(⟨4, 10⟩, ⟨4, -10⟩), 1, 4, "start_002"⟩] : List TransectRow).length ≤
      ([⟨⟨0, 0⟩, 0, 0, some "start_001"⟩, ⟨⟨4, 0⟩, 1, 4, some "start_002"⟩] :
        List PointRow).length) := by
  refine ⟨by decide, by decide, ?_⟩
  exact c1_counts ratSqrt [⟨0, 0⟩, ⟨6, 0⟩] 4 20 9 [] [] _ _ (by decide) (by decide)

/-! ## C2: dist_along of the emitted transects -/

theorem range_map_getD_eq_take {α : Type} (d : α) (l : List α) (n : ℕ) (h : n ≤ l.length) :
    (List.range n).map (fun i => l.getD i d) = l.take n := by
  apply List.ext_getElem
  · simp [Nat.min_eq_left h]
  · intro i h1 h2
    simp only [List.getElem_map, List.getElem_range, List.getElem_take]
    rw [List.getD_eq_getElem]

/-- Counterexample to C2 as stated: on the doubling-back baseline the
second emitted transect is generated by the sample at distance 16
(it is centered on the point `(4, 0)` = `interpolate 16`), but its
record carries `dist_along = 8` — the distance of the dropped sample —
so an emitted transect does not carry its originating sample
distance. -/
theorem c2_counterexample :
    (generateTransects ratSqrt [⟨0, 0⟩, ⟨10, 0⟩, ⟨0, 0⟩] 8 20 9 []).map
      (fun out => out.1.map (fun r =>
        (r.dist_along, ((r.geometry.1.x + r.geometry.2.x) / 2,
                        (r.geometry.1.y + r.geometry.2.y) / 2)))) =
      .ok [(0, (0, 0)), (8, (4, 0))] ∧
    interpolate ratSqrt [⟨0, 0⟩, ⟨10, 0⟩, ⟨0, 0⟩] 16 = ⟨4, 0⟩ ∧
    interpolate ratSqrt [⟨0, 0⟩, ⟨10, 0⟩, ⟨0, 0⟩] 8 = ⟨8, 0⟩ ∧
    sampleDistances (polylineLength ratSqrt [⟨0, 0⟩, ⟨10, 0⟩, ⟨0, 0⟩]) 8 [] =
      [0, 8, 16] ∧
    ((4 : ℚ), (0 : ℚ)) ≠ ((8 : ℚ), (0 : ℚ)) := by decide

theorem buildTransects_length_le (rt : ℚ → ℚ) (pts : List Pt) (fx fy : List ℚ) (L : ℚ) :
    (buildTransects rt pts fx fy L).length ≤ pts.length := by
  calc (buildTransects rt pts fx fy L).length
      ≤ (List.range pts.length).length := List.length_filterMap_le _ _
    _ = pts.length := List.length_range _

theorem trows_map_dist_along {n : ℕ} (dists : List ℚ) (f : ℕ → Pt × Pt) (g : ℕ → String) :
    (((List.range n).map (fun i => TransectRow.mk (f i) i (dists.getD i 0) (g i))).map
      (fun r => r.dist_along)) = (List.range n).map (fun i => dists.getD i 0) := by
  rw [List.map_map]
  rfl

theorem take_map_getD_sorted (D : List ℚ) (hD : List.Sorted (· ≤ ·) D) (n : ℕ)
    (hn : n ≤ D.length) :
    (List.range n).map (fun i => D.getD i 0) = D.take n ∧
    List.Sorted (· ≤ ·) ((List.range n).map (fun i => D.getD i 0)) := by
  have h1 := range_map_getD_eq_take 0 D n hn
  exact ⟨h1, by rw [h1]; exact List.Pairwise.sublist (List.take_sublist _ _) hD⟩

/-- C2 (amended): the `dist_along` column of the transects collection
is the ascending prefix (of the emission count's length) of the
sample-distance list — it lists each transect's originating distance
exactly when no transect is dropped — and it is always non-decreasing
in emission order. -/
theorem c2_dist_along (rt : ℚ → ℚ) (line : List Pt) (s L : ℚ) (w : Nat)
    (mops : List MopRow) (cs : List Crossing) (ts : List TransectRow) (ps : List PointRow)
    (hcs : mopCrossings rt line mops = .ok cs)
    (hok : generateTransects rt line s L w mops = .ok (ts, ps)) :
    ts.map (fun r => r.dist_along) =
      (sampleDistances (polylineLength rt line) s (cs.map (fun c => c.dist))).take
        ts.length ∧
    List.Sorted (· ≤ ·) (ts.map (fun r => r.dist_along)) := by
  obtain ⟨hts, -⟩ := generateTransects_ok_shape rt line s L w mops cs ts ps
    _ _ _ _ _ _ _ _ hcs rfl rfl rfl rfl rfl rfl rfl rfl hok
  rw [hts, trows_map_dist_along]
  simp only [List.length_map, List.length_range]
  exact take_map_getD_sorted _ (sampleDistances_sorted _ _ _) _
    (le_trans (buildTransects_length_le _ _ _ _ _) (by simp))

/-- Witness for C2: the 6 m baseline with spacing 4 — the `dist_along`
column `[0, 4]` is the full ascending sample-distance list. -/
theorem c2_witness :
    mopCrossings ratSqrt [⟨0, 0⟩, ⟨6, 0⟩] [] = .ok [] ∧
    generateTransects ratSqrt [⟨0, 0⟩, ⟨6, 0⟩] 4 20 9 [] = .ok
      ([⟨(⟨0, 10⟩, ⟨0, -10⟩), 0, 0, "start_001"⟩,
        ⟨(⟨4, 10⟩, ⟨4, -10⟩), 1, 4, "start_002"⟩],
       [⟨⟨0, 0⟩, 0, 0, some "start_001"⟩, ⟨⟨4, 0⟩, 1, 4, some "start_002"⟩]) ∧
    (([⟨(⟨0, 10⟩, ⟨0, -10⟩), 0, 0, "start_001"⟩,
       ⟨(⟨4, 10⟩, ⟨4, -10⟩), 1, 4, "start_002"⟩] : List TransectRow).map
        (fun r => r.dist_along) =
      (sampleDistances (polylineLength ratSqrt [⟨0, 0⟩, ⟨6, 0⟩]) 4
        (([] : List Crossing).map (fun c => c.dist))).take
        ([⟨(⟨0, 10⟩, ⟨0, -10⟩), 0, 0, "start_001"⟩,
          ⟨(⟨4, 10⟩, ⟨4, -10⟩), 1, 4, "start_002"⟩] : List TransectRow).length ∧
     List.Sorted (· ≤ ·)
      (([⟨(⟨0, 10⟩, ⟨0, -10⟩), 0, 0, "start_001"⟩,
         ⟨(⟨4, 10⟩, ⟨4, -10⟩), 1, 4, "start_002"⟩] : List TransectRow).map
        (fun r => r.dist_along))) := by
  refine ⟨by decide, by decide, ?_⟩
  exact c2_dist_along ratSqrt [⟨0, 0⟩, ⟨6, 0⟩] 4 20 9 [] [] _
    [⟨⟨0, 0⟩, 0, 0, some "start_001"⟩, ⟨⟨4, 0⟩, 1, 4, some "start_002"⟩]
    (by decide) (by decide)

/-! ## C10: reference-geometry anomalies -/

theorem mopCrossingsOne_ok_of_len (rt : ℚ → ℚ) (line : List Pt) (idx : Nat)
    (row : MopRow) (h : 2 ≤ row.coords.length) :
    ∃ cl, mopCrossingsOne rt line idx row = .ok cl := by
  obtain ⟨ext, hext⟩ := extendMop_ok_shape rt row.coords h
  unfold mopCrossingsOne
  split
  next e hx =>
    exfalso
    rw [hext] at hx
    exact Except.noConfusion hx
  next ext2 hx =>
    split <;> exact ⟨_, rfl⟩

theorem mopCrossingsAux_ok_of_len (rt : ℚ → ℚ) (line : List Pt) :
    ∀ (mops : List MopRow) (i : Nat),
      (∀ r ∈ mops, 2 ≤ r.coords.length) →
      ∃ cs, mopCrossingsAux rt line i mops = .ok cs := by
  intro mops
  induction mops with
  | nil => exact fun i _ => ⟨[], rfl⟩
  | cons r rest ih =>
    intro i hall
    obtain ⟨cl, hcl⟩ := mopCrossingsOne_ok_of_len rt line i r (hall r (by simp))
    obtain ⟨cs, hcs⟩ := ih (i + 1) (fun r2 hr2 => hall r2 (by simp [hr2]))
    refine ⟨cl ++ cs, ?_⟩
    unfold mopCrossingsAux
    simp only [hcl, hcs]

theorem mopCrossings_ok_of_len (rt : ℚ → ℚ) (line : List Pt) (mops : List MopRow)
    (h : ∀ r ∈ mops, 2 ≤ r.coords.length) :
    ∃ cs, mopCrossings rt line mops = .ok cs := by
  obtain ⟨cs, hcs⟩ := mopCrossingsAux_ok_of_len rt line mops 0 h
  exact ⟨_, by unfold mopCrossings; rw [hcs]; rfl⟩

/-- Counterexample to C10 as stated: with an accepted baseline
(length 20 > spacing 2), a reference row whose geometry has a single
coordinate is not skipped — `coords[1]` raises an uncaught
`IndexError` and the whole computation aborts instead of returning
normally. -/
theorem c10_counterexample :
    (2 : ℚ) < polylineLength ratSqrt [⟨0, 0⟩, ⟨20, 0⟩] ∧
    generateTransects ratSqrt [⟨0, 0⟩, ⟨20, 0⟩] 2 20 9 [⟨some "R1", [⟨5, 1⟩]⟩] =
      .error .indexError := by decide

/-- C10 (amended): a reference line whose intersection with the
extended baseline is not a point or multipoint contributes no
crossings (it is skipped and processing continues), and an accepted
input whose reference rows all have at least two coordinates always
returns normally; but a reference row with fewer than two coordinates
aborts the computation with an index error rather than being
skipped. -/
theorem c10_reference_anomalies (rt : ℚ → ℚ) (line : List Pt) (s L : ℚ) (w : Nat)
    (mops : List MopRow) :
    (s < polylineLength rt line → (∀ r ∈ mops, 2 ≤ r.coords.length) →
      ∃ out, generateTransects rt line s L w mops = .ok out) ∧
    (∀ (idx : Nat) (row : MopRow) (ext : List Pt),
      extendMop rt row.coords = .ok ext →
      polyInter line ext = .nonPoint →
      mopCrossingsOne rt line idx row = .ok []) ∧
    (∀ (idx : Nat) (row : MopRow), row.coords.length < 2 →
      mopCrossingsOne rt line idx row = .error .indexError) := by
  refine ⟨?_, ?_, ?_⟩
  · intro hlen hall
    obtain ⟨cs, hcs⟩ := mopCrossings_ok_of_len rt line mops hall
    cases hres : generateTransects rt line s L w mops with
    | ok out => exact ⟨out, rfl⟩
    | error e =>
      exfalso
      simp only [generateTransects] at hres
      rw [hcs, if_neg (not_le.mpr hlen)] at hres
      exact Except.noConfusion hres
  · intro idx row ext hext hpi
    simp only [mopCrossingsOne, hext, hpi]
  · intro idx row hlt
    have hext : extendMop rt row.coords = .error .indexError := by
      cases hc : row.coords with
      | nil => rfl
      | cons c0 tl =>
        cases tl with
        | nil => rfl
        | cons c1 rest =>
          rw [hc] at hlt
          exact absurd hlt (by simp)
    simp only [mopCrossingsOne, hext]

/-- Witness for C10: a reference line collinear with (and overlapping)
the baseline — its intersection is one-dimensional, so it yields no
crossings, and the run with it still returns normally. -/
theorem c10_witness :
    extendMop ratSqrt [⟨2, 0⟩, ⟨8, 0⟩] =
      .ok [⟨-4998, 0⟩, ⟨2, 0⟩, ⟨8, 0⟩, ⟨5008, 0⟩] ∧
    polyInter [⟨0, 0⟩, ⟨20, 0⟩] [⟨-4998, 0⟩, ⟨2, 0⟩, ⟨8, 0⟩, ⟨5008, 0⟩] = .nonPoint ∧
    mopCrossingsOne ratSqrt [⟨0, 0⟩, ⟨20, 0⟩] 0 ⟨some "R1", [⟨2, 0⟩, ⟨8, 0⟩]⟩ = .ok [] ∧
    (∃ out, generateTransects ratSqrt [⟨0, 0⟩, ⟨20, 0⟩] 2 20 9
      [⟨some "R1", [⟨2, 0⟩, ⟨8, 0⟩]⟩] = .ok out) := by
  refine ⟨by decide, by decide, ?_, ?_⟩
  · exact (c10_reference_anomalies ratSqrt [⟨0, 0⟩, ⟨20, 0⟩] 2 20 9
      [⟨some "R1", [⟨2, 0⟩, ⟨8, 0⟩]⟩]).2.1 0 ⟨some "R1", [⟨2, 0⟩, ⟨8, 0⟩]⟩
      [⟨-4998, 0⟩, ⟨2, 0⟩, ⟨8, 0⟩, ⟨5008, 0⟩] (by decide) (by decide)
  · exact (c10_reference_anomalies ratSqrt [⟨0, 0⟩, ⟨20, 0⟩] 2 20 9
      [⟨some "R1", [⟨2, 0⟩, ⟨8, 0⟩]⟩]).1 (by decide) (by decide)

/-! ## C4: labeling -/

/-- The claim's labeling rule for sample `i`: a crossing name within
0.01; else the nearest preceding crossing's name suffixed with 1 plus
the number of non-crossing samples (of the whole list) whose distances
lie strictly between that crossing's distance and the sample's
distance; else `"start_"` with the 1-based position. -/
def specLabelAt (dists : List ℚ) (mops : List (ℚ × String)) (i : Nat) : String :=
  let d := dists.getD i 0
  match mops.find? (fun m => decide (|d - m.1| < 1 / 100)) with
  | some m => m.2
  | none =>
    match lastBefore d mops with
    | some mb =>
      let cnt := (dists.filter (fun cd =>
        decide (mb.1 < cd) && decide (cd < d) &&
          ! mops.any (fun m => decide (|cd - m.1| < 1 / 100)))).length
      mb.2 ++ "_" ++ zfill3 (cnt + 1)
    | none => "start_" ++ zfill3 (i + 1)

theorem lastBefore_none (d : ℚ) (mops : List (ℚ × String))
    (hm : List.Sorted (· ≤ ·) (mops.map Prod.fst))
    (h : lastBefore d mops = none) : ∀ m ∈ mops, ¬ m.1 < d := by
  cases mops with
  | nil => intro m hmem; exact absurd hmem (List.not_mem_nil m)
  | cons m0 rest =>
    simp only [lastBefore] at h
    by_cases h0 : m0.1 < d
    · rw [if_pos h0] at h; exact Option.noConfusion h
    · intro m hmem
      rcases List.mem_cons.mp hmem with rfl | hmem2
      · exact h0
      · have hle : m0.1 ≤ m.1 := by
          have := (List.sorted_cons.mp hm).1 m.1 (List.mem_map.mpr ⟨m, hmem2, rfl⟩)
          exact this
        intro hlt
        exact h0 (lt_of_le_of_lt hle hlt)

theorem lastBefore_some (d : ℚ) : ∀ (mops : List (ℚ × String)),
    List.Sorted (· ≤ ·) (mops.map Prod.fst) →
    ∀ mb, lastBefore d mops = some mb →
      mb ∈ mops ∧ mb.1 < d ∧ ∀ m ∈ mops, m.1 < d → m.1 ≤ mb.1 := by
  intro mops
  induction mops with
  | nil => intro _ mb h; exact Option.noConfusion h
  | cons m0 rest ih =>
    intro hs mb h
    have hs2 : List.Sorted (· ≤ ·) (rest.map Prod.fst) := (List.sorted_cons.mp hs).2
    have hhead : ∀ m ∈ rest, m0.1 ≤ m.1 := fun m hmem =>
      (List.sorted_cons.mp hs).1 m.1 (List.mem_map.mpr ⟨m, hmem, rfl⟩)
    simp only [lastBefore] at h
    by_cases h0 : m0.1 < d
    · rw [if_pos h0] at h
      injection h with h2
      cases hr : lastBefore d rest with
      | none =>
        rw [hr] at h2
        simp only [Option.getD_none] at h2
        subst h2
        refine ⟨List.mem_cons_self _ _, h0, ?_⟩
        intro m hmem hlt
        rcases List.mem_cons.mp hmem with rfl | hmem2
        · exact le_refl _
        · exact absurd hlt (lastBefore_none d rest hs2 hr m hmem2)
      | some mbr =>
        rw [hr] at h2
        simp only [Option.getD_some] at h2
        subst h2
        obtain ⟨hmem, hlt2, hmax⟩ := ih hs2 mbr hr
        refine ⟨List.mem_cons_of_mem _ hmem, hlt2, ?_⟩
        intro m hmem2 hlt3
        rcases List.mem_cons.mp hmem2 with rfl | hmem3
        · exact hhead mbr hmem
        · exact hmax m hmem3 hlt3
    · rw [if_neg h0] at h; exact Option.noConfusion h

theorem range_filter_getD_eq_filter (p : ℚ → Bool) (dists : List ℚ)
    (hd : List.Sorted (· ≤ ·) dists) (i : Nat) (hi : i < dists.length)
    (hp : ∀ x : ℚ, dists.getD i 0 ≤ x → p x = false) :
    ((List.range i).filter (fun j => p (dists.getD j 0))).length =
      (dists.filter p).length := by
  have hile : i ≤ dists.length := le_of_lt hi
  have h0 : ∀ (l : List ℕ), (l.map (fun j => dists.getD j 0)).filter p =
      (l.filter (fun j => p (dists.getD j 0))).map (fun j => dists.getD j 0) := by
    intro l
    induction l with
    | nil => rfl
    | cons a t ih =>
      rw [List.map_cons, List.filter_cons, List.filter_cons]
      by_cases hpa : p (dists.getD a 0) = true
      · rw [if_pos hpa, if_pos hpa, List.map_cons, ih]
      · rw [if_neg hpa, if_neg hpa, ih]
  have h2 : (dists.take i).filter p =
      ((List.range i).filter (fun j => p (dists.getD j 0))).map (fun j => dists.getD j 0) := by
    rw [← range_map_getD_eq_take 0 dists i hile]
    exact h0 (List.range i)
  have hgd : dists.getD i 0 = dists[i] := List.getD_eq_getElem dists 0 hi
  have hdi : dists.drop i = dists[i] :: dists.drop (i + 1) :=
    List.drop_eq_getElem_cons hi
  have hdropnil : (dists.drop i).filter p = [] := by
    rw [List.filter_eq_nil_iff]
    intro a ha
    rw [hdi] at ha
    rcases List.mem_cons.mp ha with rfl | ha2
    · rw [hp _ (le_of_eq hgd)]; exact Bool.false_ne_true
    · have hsort2 : List.Sorted (· ≤ ·) (dists[i] :: dists.drop (i + 1)) := by
        rw [← hdi]
        exact List.Pairwise.sublist (List.drop_sublist _ _) hd
      have hle : dists[i] ≤ a := (List.sorted_cons.mp hsort2).1 a ha2
      rw [hp a (hgd ▸ hle)]
      exact Bool.false_ne_true
  calc ((List.range i).filter (fun j => p (dists.getD j 0))).length
      = (((List.range i).filter (fun j => p (dists.getD j 0))).map
          (fun j => dists.getD j 0)).length := (List.length_map _ _).symm
    _ = ((dists.take i).filter p).length := by rw [h2]
    _ = ((dists.take i).filter p).length + ((dists.drop i).filter p).length := by
          rw [hdropnil]; simp
    _ = (dists.filter p).length := by
          rw [← List.length_append, ← List.filter_append, List.take_append_drop]

/-- C4: for sorted sample distances and crossings, the code's label of
each sample agrees with the claim's rule — crossing name within 0.01;
else the nearest preceding crossing's name with a 3-digit counter of
1 plus the non-crossing samples strictly between it and the sample;
else `start_` with the 1-based position — and the crossing the code
selects (`lastBefore`) really is the nearest preceding one by
distance. -/
theorem c4_labels (dists : List ℚ) (mops : List (ℚ × String))
    (hd : List.Sorted (· ≤ ·) dists)
    (hm : List.Sorted (· ≤ ·) (mops.map Prod.fst))
    (i : Nat) (hi : i < dists.length) :
    labelAt dists mops i = specLabelAt dists mops i ∧
    (∀ mb, lastBefore (dists.getD i 0) mops = some mb →
      mb ∈ mops ∧ mb.1 < dists.getD i 0 ∧
        ∀ m ∈ mops, m.1 < dists.getD i 0 → m.1 ≤ mb.1) ∧
    (lastBefore (dists.getD i 0) mops = none →
      ∀ m ∈ mops, ¬ m.1 < dists.getD i 0) := by
  refine ⟨?_, lastBefore_some _ mops hm, lastBefore_none _ mops hm⟩
  unfold labelAt specLabelAt
  cases hfind : mops.find? (fun m => decide (|dists.getD i 0 - m.1| < 1 / 100)) with
  | some m => simp only [hfind]
  | none =>
    simp only [hfind]
    cases hlb : lastBefore (dists.getD i 0) mops with
    | none => simp only [hlb]
    | some mb =>
      simp only [hlb]
      have hcnt : ((List.range i).filter (fun j =>
          decide (mb.1 < dists.getD j 0) && decide (dists.getD j 0 < dists.getD i 0) &&
            ! mops.any (fun m => decide (|dists.getD j 0 - m.1| < 1 / 100)))).length =
          (dists.filter (fun cd =>
            decide (mb.1 < cd) && decide (cd < dists.getD i 0) &&
              ! mops.any (fun m => decide (|cd - m.1| < 1 / 100)))).length := by
        apply range_filter_getD_eq_filter
          (fun cd => decide (mb.1 < cd) && decide (cd < dists.getD i 0) &&
            ! mops.any (fun m => decide (|cd - m.1| < 1 / 100))) dists hd i hi
        intro x hx
        have h1 : decide (x < dists.getD i 0) = false := decide_eq_false (not_lt.mpr hx)
        rw [h1, Bool.and_false, Bool.false_and]
      rw [hcnt]

/-- Witness for C4 (the spec's reference-snapping scenario): eight
sorted sample distances with one crossing `("R1", 50)`; sample 5
(distance 50) is labeled `R1`, sample 6 (distance 60) `R1_001`, in
agreement with the claim's rule. -/
theorem c4_witness :
    List.Sorted (· ≤ ·) [(0 : ℚ), 10, 20, 30, 40, 50, 60, 70] ∧
    List.Sorted (· ≤ ·) (([(50, "R1")] : List (ℚ × String)).map Prod.fst) ∧
    labelAt [(0 : ℚ), 10, 20, 30, 40, 50, 60, 70] [(50, "R1")] 5 = "R1" ∧
    labelAt [(0 : ℚ), 10, 20, 30, 40, 50, 60, 70] [(50, "R1")] 6 = "R1_001" ∧
    labelAt [(0 : ℚ), 10, 20, 30, 40, 50, 60, 70] [(50, "R1")] 0 = "start_001" ∧
    (labelAt [(0 : ℚ), 10, 20, 30, 40, 50, 60, 70] [(50, "R1")] 6 =
      specLabelAt [(0 : ℚ), 10, 20, 30, 40, 50, 60, 70] [(50, "R1")] 6 ∧
     (∀ mb, lastBefore (([(0 : ℚ), 10, 20, 30, 40, 50, 60, 70] : List ℚ).getD 6 0)
        [(50, "R1")] = some mb →
        mb ∈ [((50 : ℚ), "R1")] ∧
        mb.1 < ([(0 : ℚ), 10, 20, 30, 40, 50, 60, 70] : List ℚ).getD 6 0 ∧
        ∀ m ∈ [((50 : ℚ), "R1")],
          m.1 < ([(0 : ℚ), 10, 20, 30, 40, 50, 60, 70] : List ℚ).getD 6 0 →
          m.1 ≤ mb.1) ∧
     (lastBefore (([(0 : ℚ), 10, 20, 30, 40, 50, 60, 70] : List ℚ).getD 6 0)
        [(50, "R1")] = none →
        ∀ m ∈ [((50 : ℚ), "R1")],
          ¬ m.1 < ([(0 : ℚ), 10, 20, 30, 40, 50, 60, 70] : List ℚ).getD 6 0)) :=
  ⟨by decide, by decide, by decide, by decide, by decide,
    c4_labels [(0 : ℚ), 10, 20, 30, 40, 50, 60, 70] [(50, "R1")]
      (by decide) (by decide) 6 (by decide)⟩

/-! ## C5: reference-orientation locking and influence blending -/

theorem nearestMopAux_invar (i : Nat) :
    ∀ (l : List (Nat × ℚ × ℚ)) (b : Nat × ℚ × ℚ),
      (nearestMopAux i (some b) l = some b ∧
        ∀ f ∈ l, natDist i b.1 ≤ natDist i f.1) ∨
      (∃ e l1 l2, nearestMopAux i (some b) l = some e ∧ l = l1 ++ e :: l2 ∧
        natDist i e.1 < natDist i b.1 ∧
        (∀ f ∈ l1, natDist i e.1 < natDist i f.1) ∧
        (∀ f ∈ l2, natDist i e.1 ≤ natDist i f.1)) := by
  intro l
  induction l with
  | nil =>
    intro b
    left
    exact ⟨rfl, fun f hf => absurd hf (List.not_mem_nil f)⟩
  | cons g rest ih =>
    intro b
    simp only [nearestMopAux]
    by_cases hg : natDist i g.1 < natDist i b.1
    · rw [if_pos hg]
      rcases ih g with ⟨heq, hmin⟩ | ⟨e, l1, l2, heq, hsplit, hlt, hall1, hall2⟩
      · right
        exact ⟨g, [], rest, heq, rfl, hg, by simp, hmin⟩
      · right
        refine ⟨e, g :: l1, l2, heq, by rw [hsplit]; rfl, lt_trans hlt hg, ?_, hall2⟩
        intro f hf
        rcases List.mem_cons.mp hf with rfl | hf2
        · exact hlt
        · exact hall1 f hf2
    · rw [if_neg hg]
      push_neg at hg
      rcases ih b with ⟨heq, hmin⟩ | ⟨e, l1, l2, heq, hsplit, hlt, hall1, hall2⟩
      · left
        refine ⟨heq, ?_⟩
        intro f hf
        rcases List.mem_cons.mp hf with rfl | hf2
        · exact hg
        · exact hmin f hf2
      · right
        refine ⟨e, g :: l1, l2, heq, by rw [hsplit]; rfl, hlt, ?_, hall2⟩
        intro f hf
        rcases List.mem_cons.mp hf with rfl | hf2
        · exact lt_of_lt_of_le hlt hg
        · exact hall1 f hf2

theorem nearestMop_none_iff (l : List (Nat × ℚ × ℚ)) (i : Nat) :
    nearestMop l i = none ↔ l = [] := by
  cases l with
  | nil => exact ⟨fun _ => rfl, fun _ => rfl⟩
  | cons g rest =>
    constructor
    · intro h
      exfalso
      unfold nearestMop nearestMopAux at h
      rcases nearestMopAux_invar i rest g with ⟨heq, -⟩ | ⟨e, l1, l2, heq, -, -, -, -⟩ <;>
        rw [heq] at h <;> exact Option.noConfusion h
    · intro h
      exact List.noConfusion h

theorem nearestMop_first_min (l : List (Nat × ℚ × ℚ)) (i : Nat) (e : Nat × ℚ × ℚ)
    (h : nearestMop l i = some e) :
    ∃ l1 l2, l = l1 ++ e :: l2 ∧
      (∀ f ∈ l1, natDist i e.1 < natDist i f.1) ∧
      (∀ f ∈ l2, natDist i e.1 ≤ natDist i f.1) := by
  cases l with
  | nil => exact Option.noConfusion h
  | cons g rest =>
    unfold nearestMop nearestMopAux at h
    rcases nearestMopAux_invar i rest g with ⟨heq, hmin⟩ |
      ⟨e2, l1, l2, heq, hsplit, hlt, hall1, hall2⟩
    · rw [heq] at h
      injection h with h2
      subst h2
      exact ⟨[], rest, rfl, by simp, hmin⟩
    · rw [heq] at h
      injection h with h2
      subst h2
      refine ⟨g :: l1, l2, by rw [hsplit]; rfl, ?_, hall2⟩
      intro f hf
      rcases List.mem_cons.mp hf with rfl | hf2
      · exact hlt
      · exact hall1 f hf2

theorem finalSeries_getD (ptsLen : Nat) (sx sy : List ℚ) (mopIdx : List (Nat × ℚ × ℚ))
    (i : Nat) (hix : i < sx.length) (hiy : i < sy.length) (hip : i < ptsLen) :
    (finalSeries ptsLen sx sy mopIdx).1.getD i 0 = (influenceAt sx sy mopIdx i).1 ∧
    (finalSeries ptsLen sx sy mopIdx).2.getD i 0 = (influenceAt sx sy mopIdx i).2 := by
  unfold finalSeries
  constructor
  · rw [List.getD_eq_getElem _ _ (by simpa using hix)]
    simp only [List.getElem_map, List.getElem_range]
    rw [if_pos hip]
  · rw [List.getD_eq_getElem _ _ (by simpa using hiy)]
    simp only [List.getElem_map, List.getElem_range]
    rw [if_pos hip]

theorem influenceAt_spec (sx sy : List ℚ) (mopIdx : List (Nat × ℚ × ℚ)) (i : Nat) :
    (∀ j mx my, nearestMop mopIdx i = some (j, mx, my) →
      (natDist i j ≤ 10 →
        influenceAt sx sy mopIdx i =
          ((1 - (natDist i j : ℚ) / 11) * mx + ((natDist i j : ℚ) / 11) * sx.getD i 0,
           (1 - (natDist i j : ℚ) / 11) * my + ((natDist i j : ℚ) / 11) * sy.getD i 0)) ∧
      (10 < natDist i j →
        influenceAt sx sy mopIdx i = (sx.getD i 0, sy.getD i 0))) ∧
    (nearestMop mopIdx i = none →
      influenceAt sx sy mopIdx i = (sx.getD i 0, sy.getD i 0)) := by
  constructor
  · intro j mx my hn
    constructor
    · intro hle
      simp only [influenceAt, hn]
      rw [if_pos hle]
      by_cases hd0 : natDist i j = 0
      · rw [if_pos hd0]
        have hq : ((natDist i j : ℕ) : ℚ) = 0 := by rw [hd0]; norm_num
        rw [hq]
        simp only [Prod.mk.injEq]
        constructor <;> ring
      · rw [if_neg hd0]
        simp only [Prod.mk.injEq]
        constructor <;> ring
    · intro hgt
      simp only [influenceAt, hn]
      rw [if_neg (not_le.mpr hgt)]
  · intro hn
    simp only [influenceAt, hn]

theorem mopOrientAt_spec (rt : ℚ → ℚ) (geom : List Pt) (pt : Pt) (snx sny mx my : ℚ) :
    mopOrientAt rt geom pt snx sny = some (mx, my) ↔
      ∃ dx dy, mopLocalDir rt geom pt = some (dx, dy) ∧
        ((dx * snx + dy * sny < 0 ∧ mx = -dx ∧ my = -dy) ∨
         (0 ≤ dx * snx + dy * sny ∧ mx = dx ∧ my = dy)) := by
  unfold mopOrientAt
  cases hld : mopLocalDir rt geom pt with
  | none =>
    simp only [Option.map_none']
    constructor
    · intro h; exact Option.noConfusion h
    · rintro ⟨dx, dy, h2, -⟩; exact Option.noConfusion h2
  | some d =>
    simp only [Option.map_some']
    constructor
    · intro h
      injection h with h2
      refine ⟨d.1, d.2, rfl, ?_⟩
      by_cases hdot : d.1 * snx + d.2 * sny < 0
      · left
        rw [if_pos hdot] at h2
        rw [Prod.mk.injEq] at h2
        exact ⟨hdot, h2.1.symm, h2.2.symm⟩
      · right
        rw [if_neg hdot] at h2
        refine ⟨not_lt.mp hdot, ?_, ?_⟩
        · rw [h2]
        · rw [h2]
    · rintro ⟨dx, dy, h2, hcase⟩
      injection h2 with h3
      subst h3
      rcases hcase with ⟨hdot, hmx, hmy⟩ | ⟨hdot, hmx, hmy⟩
      · rw [if_pos (show (dx, dy).1 * snx + (dx, dy).2 * sny < 0 from hdot)]
        rw [hmx, hmy]
      · rw [if_neg (not_lt.mpr (show 0 ≤ (dx, dy).1 * snx + (dx, dy).2 * sny from hdot))]
        rw [hmx, hmy]

theorem mopIndicesDef_mem (rt : ℚ → ℚ) (dists : List ℚ) (pts : List Pt)
    (dict : List (ℚ × List Pt)) (sx sy : List ℚ) (i : Nat) (mx my : ℚ) :
    (i, mx, my) ∈ mopIndicesDef rt dists pts dict sx sy ↔
      i < pts.length ∧
      ∃ kv, dict.find? (fun e => decide (|dists.getD i 0 - e.1| < 1 / 100)) = some kv ∧
        mopOrientAt rt kv.2 (pts.getD i ⟨0, 0⟩) (sx.getD i 0) (sy.getD i 0) =
          some (mx, my) := by
  unfold mopIndicesDef
  rw [List.mem_filterMap]
  constructor
  · rintro ⟨a, ha, hfa⟩
    rw [List.mem_range] at ha
    cases hfind : dict.find? (fun e => decide (|dists.getD a 0 - e.1| < 1 / 100)) with
    | none =>
      rw [hfind] at hfa
      exact Option.noConfusion hfa
    | some kv =>
      simp only [hfind] at hfa
      cases hmo : mopOrientAt rt kv.2 (pts.getD a ⟨0, 0⟩) (sx.getD a 0) (sy.getD a 0) with
      | none =>
        rw [hmo] at hfa
        exact Option.noConfusion hfa
      | some mn =>
        rw [hmo] at hfa
        simp only [Option.map_some'] at hfa
        injection hfa with h2
        rw [Prod.mk.injEq] at h2
        obtain ⟨hai, h3⟩ := h2
        subst hai
        refine ⟨ha, kv, hfind, ?_⟩
        rw [hmo]
        exact congrArg some h3
  · rintro ⟨hi, kv, hfind, hmo⟩
    refine ⟨i, List.mem_range.mpr hi, ?_⟩
    simp only [hfind, hmo, Option.map_some']

/-- C5: the `mop_indices` entries are exactly the crossing-coincident
samples (first dict key within 0.01) whose reference-local direction is
non-degenerate, locked to that direction sign-flipped exactly when its
dot product with the smoothed normal is negative; the blending pass
finds the index-nearest locked sample with ties to the first found,
and within influence radius 10 both final components at a sample equal
`weight * locked + (1 - weight) * smoothed` with
`weight = 1 - indexDistance/11` (the locked orientation exactly at
index distance 0); outside the radius, or with no locked samples (in
particular with no reference lines), the smoothed normal is kept
unchanged. -/
theorem c5_lock_and_blend (rt : ℚ → ℚ) (dists : List ℚ) (pts : List Pt)
    (dict : List (ℚ × List Pt)) (sx sy : List ℚ) (i : Nat) (mx my : ℚ) :
    ((i, mx, my) ∈ mopIndicesDef rt dists pts dict sx sy ↔
      i < pts.length ∧
      ∃ kv, dict.find? (fun e => decide (|dists.getD i 0 - e.1| < 1 / 100)) = some kv ∧
        ∃ dx dy, mopLocalDir rt kv.2 (pts.getD i ⟨0, 0⟩) = some (dx, dy) ∧
          ((dx * sx.getD i 0 + dy * sy.getD i 0 < 0 ∧ mx = -dx ∧ my = -dy) ∨
           (0 ≤ dx * sx.getD i 0 + dy * sy.getD i 0 ∧ mx = dx ∧ my = dy))) ∧
    (∀ (mopIdx : List (Nat × ℚ × ℚ)) (e : Nat × ℚ × ℚ),
      nearestMop mopIdx i = some e →
      ∃ l1 l2, mopIdx = l1 ++ e :: l2 ∧
        (∀ f ∈ l1, natDist i e.1 < natDist i f.1) ∧
        (∀ f ∈ l2, natDist i e.1 ≤ natDist i f.1)) ∧
    (∀ mopIdx : List (Nat × ℚ × ℚ), nearestMop mopIdx i = none ↔ mopIdx = []) ∧
    (∀ (ptsLen : Nat) (mopIdx : List (Nat × ℚ × ℚ)),
      i < sx.length → i < sy.length → i < ptsLen →
      (∀ j mx2 my2, nearestMop mopIdx i = some (j, mx2, my2) →
        (natDist i j ≤ 10 →
          (finalSeries ptsLen sx sy mopIdx).1.getD i 0 =
            (1 - (natDist i j : ℚ) / 11) * mx2 + ((natDist i j : ℚ) / 11) * sx.getD i 0 ∧
          (finalSeries ptsLen sx sy mopIdx).2.getD i 0 =
            (1 - (natDist i j : ℚ) / 11) * my2 + ((natDist i j : ℚ) / 11) * sy.getD i 0) ∧
        (10 < natDist i j →
          (finalSeries ptsLen sx sy mopIdx).1.getD i 0 = sx.getD i 0 ∧
          (finalSeries ptsLen sx sy mopIdx).2.getD i 0 = sy.getD i 0)) ∧
      (nearestMop mopIdx i = none →
        (finalSeries ptsLen sx sy mopIdx).1.getD i 0 = sx.getD i 0 ∧
        (finalSeries ptsLen sx sy mopIdx).2.getD i 0 = sy.getD i 0)) := by
  refine ⟨?_, fun mopIdx e => nearestMop_first_min mopIdx i e,
    fun mopIdx => nearestMop_none_iff mopIdx i, ?_⟩
  · rw [mopIndicesDef_mem]
    constructor
    · rintro ⟨hi, kv, hfind, hmo⟩
      exact ⟨hi, kv, hfind, (mopOrientAt_spec rt kv.2 _ _ _ mx my).mp hmo⟩
    · rintro ⟨hi, kv, hfind, hflip⟩
      exact ⟨hi, kv, hfind, (mopOrientAt_spec rt kv.2 _ _ _ mx my).mpr hflip⟩
  · intro ptsLen mopIdx hix hiy hip
    obtain ⟨hfx, hfy⟩ := finalSeries_getD ptsLen sx sy mopIdx i hix hiy hip
    obtain ⟨hsome, hnone⟩ := influenceAt_spec sx sy mopIdx i
    constructor
    · intro j mx2 my2 hn
      obtain ⟨hblend, hfar⟩ := hsome j mx2 my2 hn
      constructor
      · intro hle
        rw [hfx, hfy, hblend hle]
        exact ⟨rfl, rfl⟩
      · intro hgt
        rw [hfx, hfy, hfar hgt]
        exact ⟨rfl, rfl⟩
    · intro hn
      rw [hfx, hfy, hnone hn]
      exact ⟨rfl, rfl⟩

/-- The reference-snapping scenario used to witness C5: a straight
20 m baseline, spacing 2, one vertical reference line crossing at
distance 5 (sample index 3 of the merged distances). -/
def w5line : List Pt := [⟨0, 0⟩, ⟨20, 0⟩]

/-- Scenario sample distances `[0, 2, 4, 5, 6, 8, …, 18]`. -/
def w5dists : List ℚ := sampleDistances 20 2 [5]

/-- Scenario sample points. -/
def w5pts : List Pt := w5dists.map (interpolate ratSqrt w5line)

/-- Scenario crossing dictionary: distance 5 ↦ the reference geometry. -/
def w5dict : List (ℚ × List Pt) := [(5, [⟨5, -10⟩, ⟨5, 10⟩])]

/-- Scenario smoothed normal components (11 samples > window 9, so the
moving average applies). -/
def w5sxy : List ℚ × List ℚ := smoothStage 9 (rawNormals ratSqrt w5pts)

/-- Witness for C5 on the snapping scenario: the locked entry is
`(3, 0, 1)` (the reference's local direction `(0,1)`, not flipped since
its dot product with the smoothed normal is nonnegative), and sample 0
at index distance 3 from it receives the `1 - 3/11` blend. -/
theorem c5_witness :
    mopIndicesDef ratSqrt w5dists w5pts w5dict w5sxy.1 w5sxy.2 = [(3, 0, 1)] ∧
    mopLocalDir ratSqrt [⟨5, -10⟩, ⟨5, 10⟩] ⟨5, 0⟩ = some (0, 1) ∧
    nearestMop [(3, 0, 1)] 0 = some (3, 0, 1) ∧
    natDist 0 3 ≤ 10 ∧
    ((3, (0 : ℚ), (1 : ℚ)) ∈ mopIndicesDef ratSqrt w5dists w5pts w5dict w5sxy.1 w5sxy.2 ↔
      3 < w5pts.length ∧
      ∃ kv, w5dict.find? (fun e => decide (|w5dists.getD 3 0 - e.1| < 1 / 100)) = some kv ∧
        ∃ dx dy, mopLocalDir ratSqrt kv.2 (w5pts.getD 3 ⟨0, 0⟩) = some (dx, dy) ∧
          ((dx * w5sxy.1.getD 3 0 + dy * w5sxy.2.getD 3 0 < 0 ∧
              (0 : ℚ) = -dx ∧ (1 : ℚ) = -dy) ∨
           (0 ≤ dx * w5sxy.1.getD 3 0 + dy * w5sxy.2.getD 3 0 ∧
              (0 : ℚ) = dx ∧ (1 : ℚ) = dy))) ∧
    ((finalSeries w5pts.length w5sxy.1 w5sxy.2 [(3, 0, 1)]).1.getD 0 0 =
      (1 - (natDist 0 3 : ℚ) / 11) * 0 + ((natDist 0 3 : ℚ) / 11) * w5sxy.1.getD 0 0 ∧
     (finalSeries w5pts.length w5sxy.1 w5sxy.2 [(3, 0, 1)]).2.getD 0 0 =
      (1 - (natDist 0 3 : ℚ) / 11) * 1 + ((natDist 0 3 : ℚ) / 11) * w5sxy.2.getD 0 0) := by
  refine ⟨by decide, by decide, by decide, by decide, ?_, ?_⟩
  · exact (c5_lock_and_blend ratSqrt w5dists w5pts w5dict w5sxy.1 w5sxy.2 3 0 1).1
  · exact (((c5_lock_and_blend ratSqrt w5dists w5pts w5dict w5sxy.1 w5sxy.2 0 0 0).2.2.2
      w5pts.length [(3, 0, 1)] (by decide) (by decide) (by decide)).1 3 0 1
      (by decide)).1 (by decide)

end TransectMaker
